import Mathlib

/-!
Verification development for the Tongits rules engine (a three-player rummy
variant). The definitions below are a shallow embedding of the JavaScript
sources: `gameEngine.js` (cards, deck, meld recognition), `gameState.js`
(the `GameSession` round state machine, final iteration with sapaw and the
deck-empty tie-breaker), `scorer.js` (chip settlement) and `botAI.js`
(the hard bot, final iteration with the fight decision).

Modelling conventions:
* JS arrays are `List`s; `Array.prototype.pop` removes the last element.
* Card indices coming from clients are `Nat`s.  Out-of-range JS array reads
  yield `undefined`; we model a read as `Option Card` and a JS `TypeError`
  escaping a mutator as the `StepResult.exn` outcome.
* JS object mutation is modelled by returning the updated state.
* `Math.random` draws (shuffle result, random dealer) are parameters.
* Card comparisons in the source that use object identity (`===`,
  `Set.has`, `indexOf`, `includes`) are modelled by value equality plus the
  position in the list where the source distinguishes positions; the 52
  deck cards are pairwise distinct, so the two coincide on real rounds.
-/

namespace Tongits

/-- The four suits: '♠', '♥', '♦', '♣' (order of `SUITS` in gameEngine.js). -/
inductive Suit where
  | spade | heart | diamond | club
deriving DecidableEq, Repr

/-- The thirteen ranks, in the order of `RANKS` (ace low). -/
inductive Rank where
  | A | r2 | r3 | r4 | r5 | r6 | r7 | r8 | r9 | r10 | J | Q | K
deriving DecidableEq, Repr

/-- A playing card.  The JS `Card` also stores `value`, derived from the rank
via `RANK_VALUES`; we recompute it with `cardPointValue`. -/
structure Card where
  suit : Suit
  rank : Rank
deriving DecidableEq, Repr

/-- `RANK_VALUES`: ace 1, 2..10 face value, J/Q/K 10. -/
def cardPointValue (c : Card) : Nat :=
  match c.rank with
  | .A => 1 | .r2 => 2 | .r3 => 3 | .r4 => 4 | .r5 => 5 | .r6 => 6 | .r7 => 7
  | .r8 => 8 | .r9 => 9 | .r10 => 10 | .J => 10 | .Q => 10 | .K => 10

/-- `Card.getRankIndex()`: the position of the rank in `RANKS` (ace = 0). -/
def getRankIndex (c : Card) : Nat :=
  match c.rank with
  | .A => 0 | .r2 => 1 | .r3 => 2 | .r4 => 3 | .r5 => 4 | .r6 => 5 | .r7 => 6
  | .r8 => 7 | .r9 => 8 | .r10 => 9 | .J => 10 | .Q => 11 | .K => 12

/-- `getRankIndex` as an integer, for JS arithmetic that can go negative. -/
def rankIndexZ (c : Card) : Int := (getRankIndex c : Int)

/-- Unicode code point of the suit symbol, used to model
`String.prototype.localeCompare` on the four suit characters (assumed to
order them by code point: ♠ 0x2660 < ♣ 0x2663 < ♥ 0x2665 < ♦ 0x2666). -/
def suitCodePoint (s : Suit) : Nat :=
  match s with
  | .spade => 0x2660 | .club => 0x2663 | .heart => 0x2665 | .diamond => 0x2666

/-- Printable form of a rank (as the JS rank strings). -/
def rankStr (r : Rank) : String :=
  match r with
  | .A => "A" | .r2 => "2" | .r3 => "3" | .r4 => "4" | .r5 => "5" | .r6 => "6"
  | .r7 => "7" | .r8 => "8" | .r9 => "9" | .r10 => "10" | .J => "J" | .Q => "Q" | .K => "K"

/-- Printable form of a suit symbol. -/
def suitStr (s : Suit) : String :=
  match s with
  | .spade => "S" | .heart => "H" | .diamond => "D" | .club => "C"

/-- `card.toString()` / the `${card.rank}${card.suit}` template pieces
(suit symbols rendered as letters; log text is never inspected). -/
def cardStr (c : Card) : String := rankStr c.rank ++ suitStr c.suit

/-- All thirteen ranks in `RANKS` order. -/
def allRanks : List Rank :=
  [.A, .r2, .r3, .r4, .r5, .r6, .r7, .r8, .r9, .r10, .J, .Q, .K]

/-- All four suits in `SUITS` order. -/
def allSuits : List Suit := [.spade, .heart, .diamond, .club]

/-- The `Deck` constructor: for each suit of `SUITS`, for each rank of
`RANKS`, one card.  `deck.draw()` pops the LAST element. -/
def standardDeck : List Card :=
  allSuits.flatMap (fun s => allRanks.map (fun r => { suit := s, rank := r }))

/-- Generic embedding of `Array.prototype.sort(cmp)` (a stable comparison
sort; V8 uses TimSort).  Implemented as a stable insertion sort: an element
is inserted before the first element it strictly precedes. -/
def insertCmp (cmp : α → α → Int) (x : α) : List α → List α
  | [] => [x]
  | y :: ys => if cmp x y < 0 then x :: y :: ys else y :: insertCmp cmp x ys

/-- `Array.prototype.sort(cmp)` on a list. -/
def sortCmp (cmp : α → α → Int) : List α → List α
  | [] => []
  | x :: xs => insertCmp cmp x (sortCmp cmp xs)

/-- `GameUtils.isSet(cards)`: 3 or 4 cards, all of the first card's rank. -/
def isSet (cards : List Card) : Bool :=
  if cards.length < 3 ∨ cards.length > 4 then false
  else
    match cards with
    | [] => false
    | c0 :: _ => cards.all (fun c => c.rank = c0.rank)

/-- Comparator `(a, b) => a.getRankIndex() - b.getRankIndex()`. -/
def byRankIndex (a b : Card) : Int := rankIndexZ a - rankIndexZ b

/-- The consecutive-ranks check of `GameUtils.isRun` on the sorted list. -/
def consecutiveRanks : List Card → Bool
  | [] => true
  | [_] => true
  | a :: b :: rest =>
    if getRankIndex b = getRankIndex a + 1 then consecutiveRanks (b :: rest) else false

/-- `GameUtils.isRun(cards)`: 3+ cards, one suit, strictly consecutive
ranks after sorting by rank index (ace low, no wraparound). -/
def isRun (cards : List Card) : Bool :=
  if cards.length < 3 then false
  else
    match cards with
    | [] => false
    | c0 :: _ =>
      if cards.all (fun c => c.suit = c0.suit) then
        consecutiveRanks (sortCmp byRankIndex cards)
      else false

/-- Comparator of `findPossibleMelds`' initial sort:
`(a, b) => a.suit.localeCompare(b.suit) || rank index difference`
(suits compared by code point, see `suitCodePoint`). -/
def bySuitThenRank (a b : Card) : Int :=
  if a.suit ≠ b.suit then (suitCodePoint a.suit : Int) - (suitCodePoint b.suit : Int)
  else byRankIndex a b

/-- The inner loop of `findPossibleMelds`' run scan: starting from the run
`accRev` (indices into `sorted`, most recent first), scan positions `j`,
`j+1`, … while `j < sorted.length` and append every unused position whose
card extends the run by one rank in the same suit.  Returns the run's
indices in scan order.  The loop `while j < sorted.length` is driven by
the fuel `sorted.length - j`, which hits 0 exactly when `j` passes the
end, so the function is structurally recursive and fully evaluable. -/
def growRun (sorted : List Card) (used : List Nat) :
    List Nat → Nat → Nat → List Nat
  | accRev, _, 0 => accRev.reverse
  | accRev, j, fuel + 1 =>
    if j ∈ used then growRun sorted used accRev (j + 1) fuel
    else
      match accRev with
      | [] => growRun sorted used accRev (j + 1) fuel  -- unreachable: the run starts with one index
      | lastIdx :: _ =>
        match sorted[lastIdx]? with
        | none => growRun sorted used accRev (j + 1) fuel  -- unreachable: indices are in range
        | some last =>
          match sorted[j]? with
          | none => growRun sorted used accRev (j + 1) fuel  -- unreachable: fuel > 0 keeps j in range
          | some cj =>
            if cj.suit = last.suit ∧ getRankIndex cj = getRankIndex last + 1
            then growRun sorted used (j :: accRev) (j + 1) fuel
            else growRun sorted used accRev (j + 1) fuel

/-- The outer loop of `findPossibleMelds`' run scan (fuel-driven like
`growRun`).  A run of length ≥ 3 is claimed: its indices are recorded as a
meld and marked used (the source marks `sorted.indexOf(c)` for each run
card, which is the card's position since the 52 deck cards are pairwise
distinct). -/
def scanRuns (sorted : List Card) :
    Nat → List (List Nat) → List Nat → Nat → List (List Nat) × List Nat
  | _, melds, used, 0 => (melds, used)
  | i, melds, used, fuel + 1 =>
    if i ∈ used then scanRuns sorted (i + 1) melds used fuel
    else
      let runIdx := growRun sorted used [i] (i + 1) (sorted.length - (i + 1))
      if runIdx.length ≥ 3 then
        scanRuns sorted (i + 1) (melds ++ [runIdx]) (used ++ runIdx) fuel
      else scanRuns sorted (i + 1) melds used fuel

/-- The nine integer-like rank keys `'2'`…`'10'`. -/
def numericRanks : List Rank := [.r2, .r3, .r4, .r5, .r6, .r7, .r8, .r9, .r10]

/-- Whether a rank's string is an array-index-like JS object key. -/
def isNumericRank (r : Rank) : Bool := r ∈ numericRanks

/-- Enumeration order of the `byRank` object's keys in `findPossibleMelds`:
JS enumerates integer-like keys ('2'…'10') in ascending numeric order
first, then the remaining string keys ('A','J','Q','K') in insertion
order (first occurrence in `remaining`). -/
def rankKeysInJsOrder (cards : List Card) : List Rank :=
  let numeric := numericRanks.filter (fun r => cards.any (fun c => c.rank = r))
  let letters := cards.foldl
    (fun acc c => if isNumericRank c.rank ∨ c.rank ∈ acc then acc else acc ++ [c.rank]) []
  numeric ++ letters

/-- `GameUtils.findPossibleMelds(cards)`: the greedy, non-exhaustive meld
scan — runs first on the hand sorted by (suit, rank index), then sets of
size ≥ 3 among the cards not used by a run. -/
def findPossibleMelds (cards : List Card) : List (List Card) :=
  let sorted := sortCmp bySuitThenRank cards
  let scanned := scanRuns sorted 0 [] [] sorted.length
  let runMelds := scanned.1.map (fun idxs => idxs.filterMap (fun i => sorted[i]?))
  let remaining := (sorted.enum.filter (fun ic => ic.1 ∉ scanned.2)).map (fun ic => ic.2)
  let setMelds := (rankKeysInJsOrder remaining).filterMap (fun r =>
    let grp := remaining.filter (fun c => c.rank = r)
    if grp.length ≥ 3 then some grp else none)
  runMelds ++ setMelds

/-- `GameUtils.calculateHandValue(cards)`: the summed point value of the
cards not covered by `findPossibleMelds` (the source collects melded cards
in an identity `Set`; value membership coincides on distinct cards). -/
def calculateHandValue (cards : List Card) : Nat :=
  let melded := (findPossibleMelds cards).flatMap id
  cards.foldl (fun sum c => if c ∈ melded then sum else sum + cardPointValue c) 0

/-- `GameUtils.canLayOff(card, meld)` with a definitely-present card. -/
def canLayOff (card : Card) (meld : List Card) : Bool :=
  if isSet meld then
    decide (meld.length < 4) &&
      (match meld with
       | [] => false  -- unreachable: a set has ≥ 3 cards
       | m0 :: _ => decide (card.rank = m0.rank))
  else if isRun meld then
    match sortCmp byRankIndex meld with
    | [] => false  -- unreachable: a run has ≥ 3 cards
    | first :: rest =>
      decide (card.suit = first.suit ∧
        (rankIndexZ card = rankIndexZ first - 1 ∨
         rankIndexZ card = rankIndexZ (rest.getLastD first) + 1))
  else false

/-- `GameUtils.canLayOff(card, meld)` where `card` is a JS array read that
may be `undefined`: `none` models a `TypeError` escaping.  Note the set
branch short-circuits on `meld.length < 4` before reading the card, so a
full set rejects an undefined card without throwing. -/
def canLayOffJS (card : Option Card) (meld : List Card) : Option Bool :=
  if isSet meld then
    if meld.length < 4 then
      match card, meld with
      | none, _ => none  -- TypeError: reading .rank of undefined
      | some _, [] => some false  -- unreachable: a set has ≥ 3 cards
      | some c, m0 :: _ => some (decide (c.rank = m0.rank))
    else some false
  else if isRun meld then
    match card with
    | none => none  -- TypeError: reading .suit of undefined
    | some c =>
      match sortCmp byRankIndex meld with
      | [] => some false  -- unreachable: a run has ≥ 3 cards
      | first :: rest =>
        some (decide (c.suit = first.suit ∧
          (rankIndexZ c = rankIndexZ first - 1 ∨
           rankIndexZ c = rankIndexZ (rest.getLastD first) + 1)))
  else some false

/-- `cards.every(c => c.rank === rank)` over possibly-undefined entries:
iterates in order, returns `false` at the first defined mismatch and
throws (`none`) at the first undefined entry reached. -/
def everyRankEq : List (Option Card) → Rank → Option Bool
  | [], _ => some true
  | none :: _, _ => none
  | some c :: rest, r => if c.rank = r then everyRankEq rest r else some false

/-- `cards.every(c => c.suit === suit)` over possibly-undefined entries. -/
def everySuitEq : List (Option Card) → Suit → Option Bool
  | [], _ => some true
  | none :: _, _ => none
  | some c :: rest, s => if c.suit = s then everySuitEq rest s else some false

/-- `GameUtils.isSet` applied to an array that may contain `undefined`
entries (out-of-range hand reads in `drawFromDiscard` / `exposeMeld`). -/
def isSetJS (cards : List (Option Card)) : Option Bool :=
  if cards.length < 3 ∨ cards.length > 4 then some false
  else
    match cards with
    | [] => some false  -- unreachable: length ≥ 3 here
    | none :: _ => none  -- `cards[0].rank` throws
    | some c0 :: _ => everyRankEq cards c0.rank

/-- `GameUtils.isRun` applied to an array that may contain `undefined`
entries.  The sort is only reached once every entry passed the suit check,
hence is defined. -/
def isRunJS (cards : List (Option Card)) : Option Bool :=
  if cards.length < 3 then some false
  else
    match cards with
    | [] => some false  -- unreachable: length ≥ 3 here
    | none :: _ => none  -- `cards[0].suit` throws
    | some c0 :: _ =>
      match everySuitEq cards c0.suit with
      | none => none
      | some false => some false
      | some true => some (consecutiveRanks (sortCmp byRankIndex (cards.filterMap id)))

/-- JS `a || b` on the two meld checks, with lazy right side and `TypeError`
(`none`) propagation. -/
def orElseJS (a : Option Bool) (b : Unit → Option Bool) : Option Bool :=
  match a with
  | none => none
  | some true => some true
  | some false => b ()

/-- An exposed meld: `{ cards, isSecret }` as pushed by the mutators.
`isSapawedByOthers` is declared by the spec's data model (§3) and read by
the hard bot and the spec's `callFight`, but no operation in the sources
ever writes it (a JS read yields `undefined`, i.e. false). -/
structure Meld where
  cards : List Card
  isSecret : Bool
  isSapawedByOthers : Bool
deriving DecidableEq, Repr

/-- A seat (the JS `Player` class).  `openedThisTurn` is declared by the
spec's data model (§3) and read by the serializer and the hard bot, but no
operation in the sources ever writes it (`undefined`, i.e. false). -/
structure Player where
  id : String
  name : String
  ptype : String
  difficulty : String
  hand : List Card
  exposedMelds : List Meld
  chips : Int
  hasOpened : Bool
  isBurned : Bool
  openedThisTurn : Bool
  lastAction : String
  consecutiveWins : Nat
deriving DecidableEq, Repr

/-- `new Player(id, name, type, difficulty)`. -/
def mkPlayer (id name ptype difficulty : String) : Player :=
  { id := id, name := name, ptype := ptype, difficulty := difficulty,
    hand := [], exposedMelds := [], chips := 100, hasOpened := false,
    isBurned := false, openedThisTurn := false, lastAction := "",
    consecutiveWins := 0 }

/-- One entry of `roundResults.players`.  The `tongit` branch builds
`{id, name, weight, isWinner}` (no best card, modelled as `none`); the
`deck-empty` branch additionally carries `bestCard`. -/
structure PlayerResult where
  id : String
  name : String
  weight : Nat
  bestCard : Option Card
  isWinner : Bool
deriving DecidableEq, Repr

/-- `this.roundResults = { type, players }`. -/
structure RoundResults where
  rtype : String
  players : List PlayerResult
deriving DecidableEq, Repr

/-- `lobby | playing | ended`. -/
inductive Status where
  | lobby | playing | ended
deriving DecidableEq, Repr

/-- In-round phase: `draw | action` (the source comment also names a
`discard` phase that is never assigned). -/
inductive Phase where
  | draw | action
deriving DecidableEq, Repr

/-- The `GameSession` state.  The deck is its card list (`deck.cards`);
`phase` is unset (JS `undefined`) until `startRound`, but every guard that
reads it also requires `status = playing`, so its initial value is
unobservable; log entries keep only the message text (the wall-clock
prefix of `addLog` is dropped). -/
structure GameSession where
  players : List Player
  deck : List Card
  discardPile : List Card
  turnIndex : Nat
  dealerIndex : Nat
  status : Status
  phase : Phase
  sidePot : Int
  winnerOfPreviousHand : Option String
  logs : List String
  roundResults : Option RoundResults
deriving DecidableEq, Repr

/-- `new GameSession()`. -/
def initialGame : GameSession :=
  { players := [], deck := standardDeck, discardPile := [], turnIndex := 0,
    dealerIndex := 0, status := .lobby, phase := .draw, sidePot := 0,
    winnerOfPreviousHand := none, logs := [], roundResults := none }

/-- Outcome of a mutator call: `ok ret s` is a normal boolean return with
the resulting session state; `exn` is a JS `TypeError` escaping the call
(triggered by an out-of-range index reaching a property access — the
session state at that point may already be partially mutated, see the
comments at the throwing branches). -/
inductive StepResult where
  | ok (ret : Bool) (s : GameSession)
  | exn
deriving DecidableEq, Repr

/-- Apply `f` to the element at position `i` (identity elsewhere); models
a JS in-place mutation of `list[i]`. -/
def updAt (l : List α) (i : Nat) (f : α → α) : List α :=
  match l, i with
  | [], _ => []
  | x :: xs, 0 => f x :: xs
  | x :: xs, n + 1 => x :: updAt xs n f

/-- `list.splice(i, 1)` (without negative indices): removes the element at
`i` when in range, otherwise removes nothing. -/
def spliceRemove (l : List α) (i : Nat) : List α :=
  if i < l.length then l.take i ++ l.drop (i + 1) else l

/-- `hand.filter((_, i) => !idxs.includes(i))` with positions counted from
`k`: keeps exactly the elements whose index is not listed. -/
def removeIdxsFrom (l : List α) (idxs : List Nat) (k : Nat) : List α :=
  match l with
  | [] => []
  | x :: xs =>
    if k ∈ idxs then removeIdxsFrom xs idxs (k + 1)
    else x :: removeIdxsFrom xs idxs (k + 1)

/-- `hand.filter((_, i) => !idxs.includes(i))`. -/
def removeIdxs (l : List α) (idxs : List Nat) : List α := removeIdxsFrom l idxs 0

/-- `this.addLog(msg)`: append the message, keeping at most the last 50
entries (timestamps dropped, see `GameSession`). -/
def addLog (s : GameSession) (msg : String) : GameSession :=
  let l := s.logs ++ [msg]
  { s with logs := if l.length > 50 then l.drop 1 else l }

/-- `compareCardsForTieBreaker(cardA, cardB)`: settlement-specific
ordering — rank values Q=13, K=12, J=11, A=1, numerals by face value;
ties broken by suit priority ♦4 > ♥3 > ♠2 > ♣1; `null`/undefined cards
sort below everything. -/
def tieBreakerRankValue (r : Rank) : Int :=
  match r with
  | .Q => 13 | .K => 12 | .J => 11 | .A => 1
  | .r2 => 2 | .r3 => 3 | .r4 => 4 | .r5 => 5 | .r6 => 6 | .r7 => 7
  | .r8 => 8 | .r9 => 9 | .r10 => 10

/-- `SUIT_ORDER` of the tie-breaker: ♦ 4, ♥ 3, ♠ 2, ♣ 1. -/
def suitOrderTB (s : Suit) : Int :=
  match s with
  | .diamond => 4 | .heart => 3 | .spade => 2 | .club => 1

/-- `compareCardsForTieBreaker`. -/
def compareCardsForTieBreaker (cardA cardB : Option Card) : Int :=
  match cardA with
  | none => -1
  | some a =>
    match cardB with
    | none => 1
    | some b =>
      let valA := tieBreakerRankValue a.rank
      let valB := tieBreakerRankValue b.rank
      if valA ≠ valB then valA - valB
      else suitOrderTB a.suit - suitOrderTB b.suit

/-- `findBestCard(hand)`: the hand's maximum under the tie-breaker
comparison (`null` for an empty hand). -/
def findBestCard (hand : List Card) : Option Card :=
  match hand with
  | [] => none
  | h :: t =>
    some (t.foldl
      (fun best c =>
        if compareCardsForTieBreaker (some c) (some best) > 0 then c else best) h)

/-- `Math.min(...weights)` over a nonempty list (0 for the empty list,
which is unreachable: a round has three seats). -/
def minWeight (ws : List Nat) : Nat :=
  match ws with
  | [] => 0
  | w :: rest => rest.foldl min w

/-- The per-seat result row built by the deck-empty branch of `endRound`. -/
def deResult (p : Player) : PlayerResult :=
  { id := p.id, name := p.name, weight := calculateHandValue p.hand
    , bestCard := findBestCard p.hand, isWinner := false }

/-- A linear key realizing the tie-breaker order on cards: five times the
settlement rank value plus the suit priority (the suit priorities lie in
1..4, so the key compares ranks first and suits second, exactly as
`compareCardsForTieBreaker` does). -/
def keyTB (c : Card) : Int := 5 * tieBreakerRankValue c.rank + suitOrderTB c.suit

/-- The tie-breaker key lifted to result rows (`null` best cards below all). -/
def keyR (r : PlayerResult) : Int :=
  match r.bestCard with
  | some c => keyTB c
  | none => 0

/-- `endRound(winner, type)`.  Writes `status`, `roundResults`,
`winnerOfPreviousHand` and the log; never touches seats, piles or chips.
The `tongit` branch is only ever invoked with the winning seat (a `none`
winner would throw on `winner.id` in JS; that call never occurs). -/
def endRound (s : GameSession) (winner : Option Player) (rtype : String) : GameSession :=
  let s1 := { s with status := .ended,
                     roundResults := some { rtype := rtype, players := [] } }
  if rtype = "tongit" then
    match winner with
    | none => s1  -- unreachable: every tongit call passes the winning seat
    | some w =>
      let rr : RoundResults :=
        { rtype := rtype
          , players := s1.players.map (fun p =>
              { id := p.id, name := p.name, weight := calculateHandValue p.hand
                , bestCard := none, isWinner := decide (p.id = w.id) }) }
      let s2 := { s1 with winnerOfPreviousHand := some w.id, roundResults := some rr }
      addLog s2 ("Game ended! " ++ w.name ++ " wins by " ++ rtype ++ ".")
  else if rtype = "deck-empty" then
    let results := s1.players.map (fun p =>
      ({ id := p.id, name := p.name, weight := calculateHandValue p.hand
         , bestCard := findBestCard p.hand, isWinner := false } : PlayerResult))
    let m := minWeight (results.map (fun r => r.weight))
    let tied := results.filter (fun r => r.weight = m)
    let ranked := if tied.length = 1 then tied
      else sortCmp (fun a b => compareCardsForTieBreaker b.bestCard a.bestCard) tied
    match ranked with
    | [] => s1  -- unreachable: the minimum weight is attained, so `tied` is nonempty
    | fw :: _ =>
      let s2 := if tied.length = 1 then s1
        else addLog s1 ("Tie breaker: " ++ fw.name ++ " wins with " ++
          (match fw.bestCard with | some c => cardStr c | none => "undefined") ++ ".")
      let rr : RoundResults :=
        { rtype := rtype
          , players := results.map (fun r => { r with isWinner := decide (r.id = fw.id) }) }
      let s3 := { s2 with winnerOfPreviousHand := some fw.id, roundResults := some rr }
      addLog s3 ("Game ended! " ++ fw.name ++ " wins with least weight (" ++
        toString m ++ ").")
  else s1

/-- `addPlayer(id, name, type, difficulty)`: appends a fresh seat while
fewer than 3 are present; returns the seat on success. -/
def addPlayer (s : GameSession) (id name ptype difficulty : String) :
    Option Player × GameSession :=
  if s.players.length < 3 then
    let p := mkPlayer id name ptype difficulty
    (some p, { s with players := s.players ++ [p] })
  else (none, s)

/-- One pass of the deal loop: each seat in order pushes `deck.draw()`
(the deck's last card) onto its hand.  The deck is freshly rebuilt with 52
cards before dealing, so it never runs dry mid-deal (JS would push
`undefined` in that unreachable case; here the hand is left unchanged). -/
def dealToEach (players : List Player) (deck : List Card) : List Player × List Card :=
  match players with
  | [] => ([], deck)
  | p :: rest =>
    match deck.getLast? with
    | some c =>
      let r := dealToEach rest deck.dropLast
      ({ p with hand := p.hand ++ [c] } :: r.1, r.2)
    | none => -- unreachable, see above
      let r := dealToEach rest deck
      (p :: r.1, r.2)

/-- `for (let i = 0; i < 12; i++) players.forEach(p => p.hand.push(deck.draw()))`. -/
def dealRounds (players : List Player) (deck : List Card) : Nat → List Player × List Card
  | 0 => (players, deck)
  | n + 1 =>
    let r := dealToEach players deck
    dealRounds r.1 r.2 n

/-- `startRound()`.  The `Math.random` draws are parameters: `shuffled` is
the freshly shuffled 52-card deck and `randDealer` the random dealer draw
(`Math.floor(Math.random()*3)`, used only when no previous winner is
recorded).  Requires 3 seats; antes 2 chips per seat into the side pot,
deals 12 cards to each seat and a 13th to the dealer, who starts in
`action` phase. -/
def startRound (s : GameSession) (shuffled : List Card) (randDealer : Nat) : StepResult :=
  if s.players.length < 3 then .ok false s
  else
    let s1 := { s with status := .playing, deck := shuffled, discardPile := [],
                       logs := [], phase := .draw }
    let anted := s1.players.map (fun p =>
      { p with chips := p.chips - 2, hand := [], exposedMelds := [],
               hasOpened := false, isBurned := false })
    let s2 := { s1 with players := anted, sidePot := s1.sidePot + 2 * s1.players.length }
    let dIdx? : Option Nat :=
      match s2.winnerOfPreviousHand with
      | some wid => s2.players.findIdx? (fun p => p.id = wid)
      | none => some (randDealer % 3)
    match dIdx? with
    | none => .exn  -- JS: findIndex yields -1 and players[-1].hand.push throws
    | some dealerIndex =>
      let dealt := dealRounds s2.players s2.deck 12
      let players' :=
        match dealt.2.getLast? with
        | some c => updAt dealt.1 dealerIndex (fun p => { p with hand := p.hand ++ [c] })
        | none => dealt.1  -- unreachable: 37 ≤ 52 cards
      let s3 := { s2 with players := players', deck := dealt.2.dropLast,
                          turnIndex := dealerIndex, dealerIndex := dealerIndex,
                          phase := .action }
      match players'[dealerIndex]? with
      | none => .exn  -- unreachable with a valid dealer index
      | some dealer =>
        .ok true (addLog s3 (dealer.name ++ " is the dealer and starts the action."))

/-- `drawFromStock(playerId)`: active seat, `draw` phase; pops the deck's
last card into the hand and moves to `action`; if the stock is now empty
the round ends immediately with `deck-empty`; an already-empty stock is a
plain boolean failure. -/
def drawFromStock (s : GameSession) (playerId : String) : StepResult :=
  if s.status ≠ .playing ∨ s.phase ≠ .draw then .ok false s
  else
    match s.players[s.turnIndex]? with
    | none => .exn  -- JS: `player.id` on undefined (turn index out of range)
    | some player =>
      if player.id ≠ playerId then .ok false s
      else
        match s.deck.getLast? with
        | none => .ok false s
        | some card =>
          let deck' := s.deck.dropLast
          let s1 := { s with deck := deck',
                             players := updAt s.players s.turnIndex
                               (fun p => { p with hand := p.hand ++ [card] }),
                             phase := .action }
          let s2 := addLog s1 (player.name ++ " drew from stock.")
          if deck'.length = 0 then
            .ok true (endRound (addLog s2 "Stock pile is empty. Round finishing...")
              none "deck-empty")
          else .ok true s2

/-- `drawFromDiscard(playerId, cardsToMeltIndexes)`: active seat, `draw`
phase, non-empty pile; pops the top discard, reads the indicated hand
cards, and requires the combination to be a set or run.  On success the
indicated hand positions are removed, the combination becomes a new
non-secret exposed meld, `hasOpened` is set and phase becomes `action`;
on a failed check the popped card is pushed back; an out-of-range index
reaching the meld check throws with the pile already popped. -/
def drawFromDiscard (s : GameSession) (playerId : String)
    (cardsToMeltIndexes : List Nat) : StepResult :=
  if s.status ≠ .playing ∨ s.phase ≠ .draw ∨ s.discardPile.length = 0 then .ok false s
  else
    match s.players[s.turnIndex]? with
    | none => .exn  -- JS: `player.id` on undefined (turn index out of range)
    | some player =>
      if player.id ≠ playerId then .ok false s
      else
        match s.discardPile.getLast? with
        | none => .ok false s  -- unreachable: the pile was checked non-empty
        | some topCard =>
          let rest := s.discardPile.dropLast
          let handCardsForMeld := cardsToMeltIndexes.map (fun i => player.hand[i]?)
          let potentialMeld := handCardsForMeld ++ [some topCard]
          match orElseJS (isSetJS potentialMeld) (fun _ => isRunJS potentialMeld) with
          | none => .exn  -- TypeError inside the meld check; the popped card is NOT restored
          | some true =>
            let s1 := { s with
              discardPile := rest,
              players := updAt s.players s.turnIndex (fun p =>
                { p with hand := removeIdxs p.hand cardsToMeltIndexes,
                         exposedMelds := p.exposedMelds ++
                           [{ cards := potentialMeld.filterMap id, isSecret := false,
                              isSapawedByOthers := false }],
                         hasOpened := true }),
              phase := .action }
            .ok true (addLog s1 (player.name ++ " drew from discard and exposed a meld."))
          | some false =>
            .ok false { s with discardPile := rest ++ [topCard] }

/-- `discard(playerId, cardIndex)`: active seat, `action` phase; splices
the indicated card onto the pile.  An empty hand ends the round with
`tongit`; otherwise the turn advances mod 3 and phase resets to `draw`.
An out-of-range index splices nothing: JS pushes `undefined` onto the
pile and throws while building the log message (the `undefined` pile entry
is not representable in `List Card`; the call is recorded as `exn`). -/
def discard (s : GameSession) (playerId : String) (cardIndex : Nat) : StepResult :=
  if s.status ≠ .playing ∨ s.phase ≠ .action then .ok false s
  else
    match s.players[s.turnIndex]? with
    | none => .exn  -- JS: `player.id` on undefined (turn index out of range)
    | some player =>
      if player.id ≠ playerId then .ok false s
      else
        match player.hand[cardIndex]? with
        | none => .exn  -- see the doc comment: partial mutation plus TypeError
        | some card =>
          let newHand := player.hand.take cardIndex ++ player.hand.drop (cardIndex + 1)
          let s1 := { s with
            players := updAt s.players s.turnIndex (fun p => { p with hand := newHand }),
            discardPile := s.discardPile ++ [card] }
          let s2 := addLog s1 (player.name ++ " discarded " ++ cardStr card ++ ".")
          if newHand.length = 0 then
            .ok true (endRound s2 (some { player with hand := newHand }) "tongit")
          else
            .ok true { s2 with turnIndex := (s2.turnIndex + 1) % 3, phase := .draw }

/-- The descending numeric comparator `(a, b) => b - a` used by
`exposeMeld` on the index list. -/
def descNatCmp (a b : Nat) : Int := (b : Int) - (a : Int)

/-- `exposeMeld(playerId, cardIndexes)`: active seat, `action` phase; the
indicated hand cards must form a set or run; they are spliced out (indices
sorted descending) into a new non-secret exposed meld and `hasOpened` is
set; an empty hand ends the round with `tongit`. -/
def exposeMeld (s : GameSession) (playerId : String) (cardIndexes : List Nat) :
    StepResult :=
  if s.status ≠ .playing ∨ s.phase ≠ .action then .ok false s
  else
    match s.players[s.turnIndex]? with
    | none => .exn  -- JS: `player.id` on undefined (turn index out of range)
    | some player =>
      if player.id ≠ playerId then .ok false s
      else
        let meldCards := cardIndexes.map (fun i => player.hand[i]?)
        match orElseJS (isSetJS meldCards) (fun _ => isRunJS meldCards) with
        | none => .exn  -- TypeError inside the meld check
        | some false => .ok false s
        | some true =>
          let newHand := (sortCmp descNatCmp cardIndexes).foldl spliceRemove player.hand
          let s1 := { s with
            players := updAt s.players s.turnIndex (fun p =>
              { p with hand := newHand,
                       exposedMelds := p.exposedMelds ++
                         [{ cards := meldCards.filterMap id, isSecret := false,
                            isSapawedByOthers := false }],
                       hasOpened := true }) }
          let s2 := addLog s1 (player.name ++ " exposed a meld.")
          if newHand.length = 0 then
            .ok true (endRound s2 (some { player with hand := newHand }) "tongit")
          else .ok true s2

/-- `sapaw(playerId, targetPlayerId, meldIndex, cardIndex)`: active seat,
`action` phase; the hand card must lay off on the target's indicated meld
(first seat matching the id; missing target or meld are boolean failures).
The card moves into the meld, which is re-sorted by rank when it is a run;
an empty hand ends the round with `tongit`. -/
def sapaw (s : GameSession) (playerId targetPlayerId : String)
    (meldIndex cardIndex : Nat) : StepResult :=
  if s.status ≠ .playing ∨ s.phase ≠ .action then .ok false s
  else
    match s.players[s.turnIndex]? with
    | none => .exn  -- JS: `player.id` on undefined (turn index out of range)
    | some player =>
      if player.id ≠ playerId then .ok false s
      else
        match s.players.enum.find? (fun ip => ip.2.id = targetPlayerId) with
        | none => .ok false s
        | some (tIdx, targetPlayer) =>
          match targetPlayer.exposedMelds[meldIndex]? with
          | none => .ok false s
          | some meld =>
            match canLayOffJS player.hand[cardIndex]? meld.cards,
                  player.hand[cardIndex]? with
            | none, _ => .exn  -- TypeError inside canLayOff on an undefined card
            | some false, _ => .ok false s
            | some true, none => .exn  -- unreachable: a lay-off succeeded, the card exists
            | some true, some card =>
              let newHand := spliceRemove player.hand cardIndex
              let newCards0 := meld.cards ++ [card]
              let newCards := if isRun newCards0
                then sortCmp byRankIndex newCards0 else newCards0
              let setMeld := fun (m : Meld) => { m with cards := newCards }
              let players' :=
                updAt (updAt s.players s.turnIndex (fun p => { p with hand := newHand }))
                  tIdx (fun p =>
                    { p with exposedMelds := updAt p.exposedMelds meldIndex setMeld })
              let s1 := { s with players := players' }
              let s2 := addLog s1 (player.name ++ " sapawed on " ++
                targetPlayer.name ++ "'s meld.")
              if newHand.length = 0 then
                .ok true (endRound s2 (some { player with hand := newHand }) "tongit")
              else .ok true s2

/-- Modelled from the spec: `GameSession.callFight(seatId)` is absent from
the sources — only its callers appear (the `socket.on('call-fight')`
handler and the hard bot's fight decision).  Per §4.2 it is legal only for
the active seat in `action` phase that has previously opened
(`hasOpened`), is not doing so on the very turn it first opened
(`!openedThisTurn`), and has some exposed meld not fully claimed by others
(`exposedMelds.some(m => !m.isSapawedByOthers)`); on success the round
terminates immediately via "the same minimum-weight rule used for stock
exhaustion" (§4.2/§4.3), realized here by the embedded `endRound`
deck-empty resolution. -/
def callFight (s : GameSession) (playerId : String) : Bool × GameSession :=
  if s.status ≠ .playing ∨ s.phase ≠ .action then (false, s)
  else
    match s.players[s.turnIndex]? with
    | none => (false, s)
    | some player =>
      if player.id ≠ playerId then (false, s)
      else if player.hasOpened ∧ ¬player.openedThisTurn ∧
        player.exposedMelds.any (fun m => !m.isSapawedByOthers) then
        (true, endRound s none "deck-empty")
      else (false, s)

/-- One chip transfer reported by the Settlement Engine
(`{ from, to, amount }`). -/
structure ChipExchange where
  fromName : String
  toName : String
  amount : Int
deriving DecidableEq, Repr

/-- The effect of `Scorer.calculateChips`: the updated winner and losers
(the JS mutates the player objects in place) plus the returned
`{ exchanges, winnerTotal, sidePotClaimed }`. -/
structure ScorerResult where
  winner : Player
  losers : List Player
  exchanges : List ChipExchange
  winnerTotal : Int
  sidePotClaimed : Int
deriving DecidableEq, Repr

/-- `Scorer.countAces(player)`: aces in hand plus aces across the exposed
melds. -/
def countAces (p : Player) : Nat :=
  (p.hand.filter (fun c => c.rank = Rank.A)).length +
    ((p.exposedMelds.map (fun m => (m.cards.filter (fun c => c.rank = Rank.A)).length)).sum)

/-- Loop accumulator of `calculateChips`. -/
structure ScorerAcc where
  losers : List Player
  exchanges : List ChipExchange
  winnerTotal : Int

/-- The body of `calculateChips`' per-loser loop: base 1 chip (3 when the
round ended by `tongit` or `challenged-draw`), plus one per winner ace
(hand and melds), plus 3 per winner meld flagged `isSecret`, plus 1 when
the loser is burned or never opened; the loser is debited its payment and
the exchange recorded. -/
def scorerStep (winner : Player) (endType : String) (acc : ScorerAcc)
    (loser : Player) : ScorerAcc :=
  let payment0 : Int := if endType = "tongit" ∨ endType = "challenged-draw" then 3 else 1
  let winnerAces := countAces winner
  let payment1 := payment0 + (winnerAces : Int)
  let secretSets := (winner.exposedMelds.filter (fun m => m.isSecret)).length
  let payment2 := payment1 + (secretSets : Int) * 3
  let payment := if loser.isBurned ∨ loser.hasOpened = false then payment2 + 1 else payment2
  { losers := acc.losers ++ [{ loser with chips := loser.chips - payment }]
    , exchanges := acc.exchanges ++ [⟨loser.name, winner.name, payment⟩]
    , winnerTotal := acc.winnerTotal + payment }

/-- `Scorer.calculateChips(winner, losers, endType, sidePotClaimed)`: run
the per-loser loop, then credit the winner the total plus the (truthy)
side pot. -/
def calculateChips (winner : Player) (losers : List Player) (endType : String)
    (sidePotClaimed : Int) : ScorerResult :=
  let a := losers.foldl (scorerStep winner endType) ⟨[], [], 0⟩
  let credited := winner.chips + a.winnerTotal +
    (if sidePotClaimed ≠ 0 then sidePotClaimed else 0)
  { winner := { winner with chips := credited }
    , losers := a.losers, exchanges := a.exchanges, winnerTotal := a.winnerTotal
    , sidePotClaimed := sidePotClaimed }

/-- A bot decision: the draw-phase string results `'draw-discard'` /
`'draw-stock'` and the action-phase objects
`{action: 'fight'|'expose'|'sapaw'|'discard', ...}` as a sum type. -/
inductive BotDecision where
  | drawDiscard
  | drawStock
  | fight
  | expose (cardIndexes : List Nat)
  | sapaw (targetPlayerId : String) (meldIndex cardIndex : Nat)
  | discard (cardIndex : Nat)
deriving DecidableEq, Repr

/-- The slice of the serialized game state the bot logic reads
(`serializeGameStateForHardBot` passes every seat's true hand). -/
structure BotView where
  phase : Phase
  discardPile : List Card
  players : List Player
deriving DecidableEq, Repr

/-- `BotAI.calculateHandWeight(hand)`: the summed `RANK_VALUES` of the raw
hand (no meld deduction; the table equals the engine's `RANK_VALUES`, so
the `|| 0` default is never used). -/
def calculateHandWeight (hand : List Card) : Nat := (hand.map cardPointValue).sum

/-- `BotAI.cardValue(card)`. -/
def cardValue (c : Card) : Nat := cardPointValue c

/-- `BotAI.meldWeight(meld)`. -/
def meldWeight (meld : List Card) : Nat := (meld.map cardValue).sum

/-- The per-card score of `BotAI.findAggressiveDiscard`:
`3·value − 15·(same-suit cards within rank distance 2) − 15·(same-rank
cards)`, the card itself excluded from both neighbor counts (the JS
excludes it by object identity, i.e. by its position). -/
def aggressiveScore (hand : List Card) (idx : Nat) (card : Card) : Int :=
  let rIdx := rankIndexZ card
  let runNeighbors := (hand.enum.filter (fun jc =>
    jc.2.suit = card.suit ∧ (rankIndexZ jc.2 - rIdx).natAbs ≤ 2 ∧ jc.1 ≠ idx)).length
  let setNeighbors := (hand.enum.filter (fun jc =>
    jc.2.rank = card.rank ∧ jc.1 ≠ idx)).length
  3 * (cardValue card : Int) - 15 * (runNeighbors : Int) - 15 * (setNeighbors : Int)

/-- `BotAI.findAggressiveDiscard(hand)`: the first index attaining the
maximal aggressive score (strict improvement keeps the earliest). -/
def findAggressiveDiscard (hand : List Card) : Nat :=
  (hand.enum.foldl (fun (acc : Nat × Int) ic =>
    let score := aggressiveScore hand ic.1 ic.2
    if score > acc.2 then (ic.1, score) else acc) (0, -1000)).1

/-- `BotAI.getIndicesForMeld(hand, meldCards)`: hand positions of the meld
cards, blanking each matched position so duplicates match distinct
positions. -/
def getIndicesForMeld (hand : List Card) (meldCards : List Card) : List Nat :=
  (meldCards.foldl (fun (acc : List (Option Card) × List Nat) mc =>
    match acc.1.findIdx? (fun hc =>
      match hc with
      | some c => decide (c.rank = mc.rank ∧ c.suit = mc.suit)
      | none => false) with
    | some idx => (updAt acc.1 idx (fun _ => none), acc.2 ++ [idx])
    | none => acc) (hand.map some, [])).2

/-- `BotAI.canDrawDiscard(player, discardPile)`: the top discard must be
part of some newly formable meld (`includes` is identity-based in JS;
value membership coincides on distinct cards). -/
def canDrawDiscard (player : Player) (discardPile : List Card) : Bool :=
  match discardPile.getLast? with
  | none => false
  | some top => (findPossibleMelds (player.hand ++ [top])).any (fun meld => top ∈ meld)

/-- The inner scan of the hard bot's sapaw priority: the first index of a
maximal-value hand card that lays off on the meld (`none` when no hand
card lays off; any layoffable card has value ≥ 1 > the initial best 0). -/
def sapawScan (hand : List Card) (meldCards : List Card) : Option Nat :=
  (hand.enum.foldl (fun (acc : Option Nat × Int) ic =>
    if canLayOff ic.2 meldCards ∧ (cardValue ic.2 : Int) > acc.2
    then (some ic.1, (cardValue ic.2 : Int)) else acc) (none, 0)).1

/-- The hard bot's sapaw search: scan every seat's exposed melds in order
(including the bot's own) and take the first meld with a layoffable card. -/
def findSapawDecision (hand : List Card) (players : List Player) : Option BotDecision :=
  players.findSome? (fun op =>
    op.exposedMelds.enum.findSome? (fun im =>
      (sapawScan hand im.2.cards).map (fun ci => BotDecision.sapaw op.id im.1 ci)))

/-- `BotAI.hardLogic(player, gameState)` (final iteration).  Draw phase:
take the discard iff it forms a meld.  Action phase, in priority order:
fight when eligible (`hasOpened`, not `openedThisTurn`, some meld not
`isSapawedByOthers`) and the own raw hand weight is ≤ 15 and strictly
below every other seat's; else expose the heaviest greedy meld; else lay
off the highest-value card; else discard by aggressive score.  (JS returns
`undefined` for any other phase; `Phase` has exactly the two in-round
values.) -/
def hardLogic (player : Player) (gs : BotView) : BotDecision :=
  match gs.phase with
  | .draw => if canDrawDiscard player gs.discardPile then .drawDiscard else .drawStock
  | .action =>
    let fightDecision : Option BotDecision :=
      if player.hasOpened ∧ ¬player.openedThisTurn then
        if player.exposedMelds.any (fun m => !m.isSapawedByOthers) then
          let myWeight := calculateHandWeight player.hand
          let canWinFight := gs.players.all (fun q =>
            q.id = player.id ∨ myWeight < calculateHandWeight q.hand)
          if canWinFight ∧ myWeight ≤ 15 then some .fight else none
        else none
      else none
    match fightDecision with
    | some d => d
    | none =>
      match findPossibleMelds player.hand with
      | m0 :: ms =>
        let bestMeld := ms.foldl
          (fun best m => if meldWeight m > meldWeight best then m else best) m0
        .expose (getIndicesForMeld player.hand bestMeld)
      | [] =>
        match findSapawDecision player.hand gs.players with
        | some d => d
        | none => .discard (findAggressiveDiscard player.hand)

/-- The five in-round mutator commands of the claims, with their
arguments. -/
inductive GameAction where
  | dstock (pid : String)
  | ddiscard (pid : String) (idxs : List Nat)
  | disc (pid : String) (idx : Nat)
  | expose (pid : String) (idxs : List Nat)
  | sap (pid tid : String) (mi ci : Nat)
deriving DecidableEq, Repr

/-- Dispatch a command to its mutator. -/
def applyAction (s : GameSession) : GameAction → StepResult
  | .dstock pid => drawFromStock s pid
  | .ddiscard pid idxs => drawFromDiscard s pid idxs
  | .disc pid i => discard s pid i
  | .expose pid idxs => exposeMeld s pid idxs
  | .sap pid tid mi ci => sapaw s pid tid mi ci

/-- Length of the active seat's hand (0 when the turn index is out of
range, in which case no index can validate). -/
def curHandLen (s : GameSession) : Nat :=
  match s.players[s.turnIndex]? with
  | some p => p.hand.length
  | none => 0

/-- Well-formed command arguments: every card index is in range for the
active seat's hand, and index lists are duplicate-free. -/
def ValidAction (s : GameSession) : GameAction → Prop
  | .dstock _ => True
  | .ddiscard _ idxs => idxs.Nodup ∧ ∀ i ∈ idxs, i < curHandLen s
  | .disc _ i => i < curHandLen s
  | .expose _ idxs => idxs.Nodup ∧ ∀ i ∈ idxs, i < curHandLen s
  | .sap _ _ _ ci => ci < curHandLen s

instance instDecidableValidAction (s : GameSession) (a : GameAction) :
    Decidable (ValidAction s a) := by
  cases a <;> simp only [ValidAction] <;> infer_instance

/-- Run a command sequence, insisting on well-formed arguments at every
step (`none` when a step has ill-formed arguments or throws). -/
def runValid (s : GameSession) : List GameAction → Option GameSession
  | [] => some s
  | a :: rest =>
    if ValidAction s a then
      match applyAction s a with
      | .ok _ s' => runValid s' rest
      | .exn => none
    else none

/-- Resulting session state of a step (fallback for `exn`). -/
def stateOf (r : StepResult) (fallback : GameSession) : GameSession :=
  match r with
  | .ok _ s => s
  | .exn => fallback

/-- Cards exposed by one seat. -/
def meldCardCount (p : Player) : Nat := (p.exposedMelds.map (fun m => m.cards.length)).sum

/-- The conserved quantity of the spec's §8:
|deck| + |discardPile| + Σ|hand| + Σ|exposed meld cards|. -/
def cardCount (s : GameSession) : Nat :=
  s.deck.length + s.discardPile.length +
    (s.players.map (fun p => p.hand.length)).sum + (s.players.map meldCardCount).sum

/-- A concrete reachability scenario: the standard deck with the spade,
heart and diamond sevens removed (49 cards). -/
def deckSansSevens : List Card :=
  standardDeck.filter (fun c => ¬(c.rank = Rank.r7 ∧ c.suit ≠ Suit.club))

/-- A legal 52-card shuffle outcome, arranged so that after the deal the
dealer's 13th card is 7♦ and the next seat's first two cards are 7♠ and
7♥ (`deck.draw()` pops from the end, so deal order is positions 51, 50, …). -/
def scenarioPerm : List Card :=
  deckSansSevens.take 15 ++ [⟨Suit.diamond, Rank.r7⟩] ++
    (deckSansSevens.drop 15).take 31 ++ [⟨Suit.heart, Rank.r7⟩] ++
    (deckSansSevens.drop 46).take 2 ++ [⟨Suit.spade, Rank.r7⟩] ++
    deckSansSevens.drop 48

/-- Lobby with three human seats P1, P2, P3. -/
def scenarioLobby : GameSession :=
  (addPlayer (addPlayer (addPlayer initialGame "P1" "Alice" "human" "medium").2
    "P2" "Bob" "human" "medium").2 "P3" "Cara" "human" "medium").2

/-- The round after `startRound` with shuffle `scenarioPerm` and random
dealer draw 0: P1 deals, holds 13 cards and starts in `action` phase. -/
def scenarioStart : GameSession := stateOf (startRound scenarioLobby scenarioPerm 0) initialGame

/-- After the dealer P1 discards hand index 12 (the 7♦): P2's turn,
`draw` phase, 7♦ on top of the pile. -/
def scenarioAfterDiscard : GameSession := stateOf (discard scenarioStart "P1" 12) initialGame

/-- After P2 calls `drawFromDiscard` with the DUPLICATED index list
`[0, 0, 1]`: the meld check sees 7♠,7♠,7♥ plus the 7♦ top card — a
4-card "set" — while the hand filter removes only positions 0 and 1. -/
def scenarioAfterDup : GameSession :=
  stateOf (drawFromDiscard scenarioAfterDiscard "P2" [0, 0, 1]) initialGame

/-- The spec's per-loser payment formula (§4.4), stated from the spec's
words for comparison with the embedded `calculateChips`:
(3 for `tongit`/challenged showdown else 1) + winner's aces + 3 per secret
winner meld + 1 for a burned or never-opened loser. -/
def paymentSpec (winner loser : Player) (endType : String) : Int :=
  (if endType = "tongit" ∨ endType = "challenged-draw" then 3 else 1) +
    (countAces winner : Int) +
    3 * ((winner.exposedMelds.filter (fun m => m.isSecret)).length : Int) +
    (if loser.isBurned ∨ loser.hasOpened = false then 1 else 0)

/-- Seat A of the fight scenario: opened earlier (an exposed ace set, not
sapawed by others), holding one unmelded card of weight 2. -/
def fightA : Player :=
  { mkPlayer "A" "Ann" "human" "medium" with
      hand := [⟨Suit.club, Rank.r2⟩], hasOpened := true,
      exposedMelds := [⟨[⟨Suit.spade, Rank.A⟩, ⟨Suit.heart, Rank.A⟩,
        ⟨Suit.diamond, Rank.A⟩], false, false⟩] }

/-- Seat B of the fight scenario: weight 9. -/
def fightB : Player :=
  { mkPlayer "B" "Ben" "human" "medium" with hand := [⟨Suit.spade, Rank.r9⟩] }

/-- Seat C of the fight scenario: weight 10. -/
def fightC : Player :=
  { mkPlayer "C" "Cal" "human" "medium" with hand := [⟨Suit.diamond, Rank.K⟩] }

/-- A mid-round state in which seat A is fight-eligible: opened earlier
(an exposed ace set, not sapawed by others), 1 unmelded card of weight 2;
B and C hold weights 9 and 10. -/
def fightScenario : GameSession :=
  { players := [fightA, fightB, fightC],
    deck := [], discardPile := [], turnIndex := 0, dealerIndex := 0,
    status := .playing, phase := .action, sidePot := 6,
    winnerOfPreviousHand := none, logs := [], roundResults := none }

/-- Seat X of the tie-break example: weight 10, best card Q♦. -/
def tieX : Player :=
  { mkPlayer "X" "Xan" "human" "medium" with hand := [⟨Suit.diamond, Rank.Q⟩] }

/-- Seat Y of the tie-break example: weight 10, best card K♠. -/
def tieY : Player :=
  { mkPlayer "Y" "Yve" "human" "medium" with hand := [⟨Suit.spade, Rank.K⟩] }

/-- Seat Z of the tie-break example: weight 11. -/
def tieZ : Player :=
  { mkPlayer "Z" "Zed" "human" "medium" with
      hand := [⟨Suit.club, Rank.r5⟩, ⟨Suit.diamond, Rank.r6⟩] }

/-- A deck-exhaustion state realizing the spec's tie-break example: seats
X and Y tie at weight 10 with best cards Q♦ and K♠; Z holds weight 11. -/
def tieScenario : GameSession :=
  { players := [tieX, tieY, tieZ],
    deck := [], discardPile := [], turnIndex := 0, dealerIndex := 0,
    status := .playing, phase := .action, sidePot := 6,
    winnerOfPreviousHand := none, logs := [], roundResults := none }

/-- End state of the witness command trace run from `scenarioStart`. -/
def scenarioTraceEnd : GameSession :=
  (runValid scenarioStart [GameAction.disc "P1" 12, GameAction.dstock "P2"]).getD initialGame

/-- The acting seat P2 of `scenarioAfterDiscard`. -/
def scenarioP2 : Player :=
  (scenarioAfterDiscard.players[scenarioAfterDiscard.turnIndex]?).getD
    (mkPlayer "" "" "" "")

/-- The dealer P1 of `scenarioStart`. -/
def scenarioP1 : Player :=
  (scenarioStart.players[scenarioStart.turnIndex]?).getD (mkPlayer "" "" "" "")

/-- After P2 draws from stock in `scenarioAfterDiscard`. -/
def scenarioAfterStock : GameSession :=
  stateOf (drawFromStock scenarioAfterDiscard "P2") initialGame

/-- The hard bot's seat in a fight-eligible action-phase situation:
weight 1 hand, opponents at weights 10 and 20. -/
def botSeat : Player :=
  { mkPlayer "bot1" "Bot hard" "bot" "hard" with
      hand := [⟨Suit.spade, Rank.A⟩], hasOpened := true,
      exposedMelds := [⟨[⟨Suit.spade, Rank.r2⟩, ⟨Suit.heart, Rank.r2⟩,
        ⟨Suit.diamond, Rank.r2⟩], false, false⟩] }

/-- The omniscient view the hard bot receives in that situation. -/
def botScenario : BotView :=
  { phase := .action, discardPile := [],
    players :=
      [botSeat,
       { mkPlayer "h1" "Hum1" "human" "medium" with hand := [⟨Suit.club, Rank.K⟩] },
       { mkPlayer "h2" "Hum2" "human" "medium" with
           hand := [⟨Suit.club, Rank.Q⟩, ⟨Suit.heart, Rank.J⟩] }] }

/-! ## Helper lemmas on the list primitives -/

theorem updAt_length (l : List α) (i : Nat) (f : α → α) :
    (updAt l i f).length = l.length := by
  induction l generalizing i with
  | nil => rfl
  | cons x xs ih =>
    cases i with
    | zero => rfl
    | succ n => simp [updAt, ih]

theorem map_updAt_invariant (l : List α) (i : Nat) (f : α → α) (g : α → β)
    (h : ∀ a, g (f a) = g a) : (updAt l i f).map g = l.map g := by
  induction l generalizing i with
  | nil => rfl
  | cons x xs ih =>
    cases i with
    | zero => simp [updAt, h]
    | succ n => simp [updAt, ih]

theorem sum_map_updAt (l : List α) (i : Nat) (f : α → α) (g : α → Nat)
    (h : i < l.length) :
    ((updAt l i f).map g).sum + g l[i] = (l.map g).sum + g (f l[i]) := by
  induction l generalizing i with
  | nil => simp at h
  | cons x xs ih =>
    cases i with
    | zero =>
      simp only [updAt, List.map_cons, List.sum_cons, List.getElem_cons_zero]
      omega
    | succ n =>
      have h' : n < xs.length := by simpa using h
      simp only [updAt, List.map_cons, List.sum_cons, List.getElem_cons_succ]
      have := ih n h'
      omega

theorem getElem?_updAt_self (l : List α) (i : Nat) (f : α → α) (h : i < l.length) :
    (updAt l i f)[i]? = some (f l[i]) := by
  induction l generalizing i with
  | nil => simp at h
  | cons x xs ih =>
    cases i with
    | zero => simp [updAt]
    | succ n =>
      have h' : n < xs.length := by simpa using h
      simpa [updAt] using ih n h'

theorem getElem?_updAt_ne (l : List α) (i j : Nat) (f : α → α) (h : j ≠ i) :
    (updAt l i f)[j]? = l[j]? := by
  induction l generalizing i j with
  | nil => rfl
  | cons x xs ih =>
    cases i with
    | zero =>
      cases j with
      | zero => exact absurd rfl h
      | succ m => simp [updAt]
    | succ n =>
      cases j with
      | zero => simp [updAt]
      | succ m => simpa [updAt] using ih n m (by omega)

theorem spliceRemove_length (l : List α) (i : Nat) (h : i < l.length) :
    (spliceRemove l i).length + 1 = l.length := by
  simp only [spliceRemove, if_pos h, List.length_append, List.length_take,
    List.length_drop]
  omega

theorem insertCmp_perm (cmp : α → α → Int) (x : α) (l : List α) :
    (insertCmp cmp x l).Perm (x :: l) := by
  induction l with
  | nil => simp [insertCmp]
  | cons y ys ih =>
    simp only [insertCmp]
    split
    · exact List.Perm.refl _
    · exact (ih.cons y).trans (List.Perm.swap x y ys)

theorem sortCmp_perm (cmp : α → α → Int) (l : List α) : (sortCmp cmp l).Perm l := by
  induction l with
  | nil => simp [sortCmp]
  | cons x xs ih => exact (insertCmp_perm cmp x (sortCmp cmp xs)).trans (ih.cons x)

theorem insertCmp_desc_pairwise (x : Nat) (l : List Nat)
    (hl : l.Pairwise (fun a b => b ≤ a)) :
    (insertCmp descNatCmp x l).Pairwise (fun a b => b ≤ a) := by
  induction l with
  | nil => simp [insertCmp]
  | cons y ys ih =>
    simp only [insertCmp]
    rcases List.pairwise_cons.mp hl with ⟨hy, hys⟩
    split
    · rename_i hxy
      have hyx : y ≤ x := by simp only [descNatCmp] at hxy; omega
      exact List.pairwise_cons.mpr ⟨fun b hb => by
        rcases List.mem_cons.mp hb with rfl | hb'
        · exact hyx
        · exact le_trans (hy b hb') hyx, hl⟩
    · rename_i hxy
      have hxy' : x ≤ y := by simp only [descNatCmp] at hxy; omega
      refine List.pairwise_cons.mpr ⟨fun b hb => ?_, ih hys⟩
      rcases List.mem_cons.mp ((insertCmp_perm descNatCmp x ys).mem_iff.mp hb) with rfl | hb'
      · exact hxy'
      · exact hy b hb'

theorem sortCmp_desc_pairwise (l : List Nat) :
    (sortCmp descNatCmp l).Pairwise (fun a b => b ≤ a) := by
  induction l with
  | nil => simp [sortCmp]
  | cons x xs ih => exact insertCmp_desc_pairwise x _ ih

theorem sortCmp_desc_strict (l : List Nat) (h : l.Nodup) :
    (sortCmp descNatCmp l).Pairwise (fun a b => b < a) := by
  have hnd : (sortCmp descNatCmp l).Nodup := ((sortCmp_perm descNatCmp l).nodup_iff).mpr h
  have := (sortCmp_desc_pairwise l).and hnd
  exact this.imp (fun hab => lt_of_le_of_ne hab.1 (Ne.symm hab.2))

theorem foldl_spliceRemove_length (ds : List Nat) (l : List α)
    (hp : ds.Pairwise (fun a b => b < a)) (hb : ∀ d ∈ ds, d < l.length) :
    (ds.foldl spliceRemove l).length + ds.length = l.length := by
  induction ds generalizing l with
  | nil => simp
  | cons d ds ih =>
    rcases List.pairwise_cons.mp hp with ⟨hlt, hp'⟩
    have hd : d < l.length := hb d (by simp)
    have h1 := spliceRemove_length l d hd
    have hb' : ∀ e ∈ ds, e < (spliceRemove l d).length := by
      intro e he
      have := hlt e he
      omega
    have := ih (spliceRemove l d) hp' hb'
    simp only [List.foldl_cons, List.length_cons]
    omega

theorem removeIdxsFrom_congr (l : List α) (idxs idxs' : List Nat) (k : Nat)
    (h : ∀ j, k ≤ j → (j ∈ idxs ↔ j ∈ idxs')) :
    removeIdxsFrom l idxs k = removeIdxsFrom l idxs' k := by
  induction l generalizing k with
  | nil => rfl
  | cons x xs ih =>
    simp only [removeIdxsFrom]
    have hk := h k le_rfl
    by_cases hm : k ∈ idxs
    · rw [if_pos hm, if_pos (hk.mp hm)]
      exact ih (k + 1) (fun j hj => h j (by omega))
    · rw [if_neg hm, if_neg (fun c => hm (hk.mpr c))]
      rw [ih (k + 1) (fun j hj => h j (by omega))]

theorem removeIdxsFrom_length (l : List α) (idxs : List Nat) (k : Nat)
    (hnd : idxs.Nodup) (hb : ∀ i ∈ idxs, k ≤ i ∧ i < k + l.length) :
    (removeIdxsFrom l idxs k).length + idxs.length = l.length := by
  induction l generalizing idxs k with
  | nil =>
    have : idxs = [] := by
      cases idxs with
      | nil => rfl
      | cons i is =>
        have h2 := hb i (by simp)
        simp only [List.length_nil] at h2
        omega
    simp [this, removeIdxsFrom]
  | cons x xs ih =>
    simp only [removeIdxsFrom]
    by_cases hm : k ∈ idxs
    · rw [if_pos hm]
      rw [removeIdxsFrom_congr xs idxs (idxs.erase k) (k + 1) (fun j hj => by
        constructor
        · intro hjm
          exact (List.mem_erase_of_ne (by omega)).mpr hjm
        · intro hjm
          exact List.mem_of_mem_erase hjm)]
      have hb' : ∀ i ∈ idxs.erase k, k + 1 ≤ i ∧ i < (k + 1) + xs.length := by
        intro i hi
        have hne : i ≠ k := ((List.Nodup.mem_erase_iff hnd).mp hi).1
        have hin : i ∈ idxs := ((List.Nodup.mem_erase_iff hnd).mp hi).2
        have := hb i hin
        simp only [List.length_cons] at this
        omega
      have hlen := List.length_erase_of_mem hm
      have hrec := ih (idxs.erase k) (k + 1) (hnd.erase k) hb'
      have hpos : 0 < idxs.length := List.length_pos_of_mem hm
      simp only [List.length_cons]
      omega
    · rw [if_neg hm]
      have hb' : ∀ i ∈ idxs, (k + 1) ≤ i ∧ i < (k + 1) + xs.length := by
        intro i hi
        have h1 := hb i hi
        have h2 : i ≠ k := fun c => hm (c ▸ hi)
        simp only [List.length_cons] at h1
        omega
      have := ih idxs (k + 1) hnd hb'
      simp only [List.length_cons]
      omega

theorem findIdx?_lt_length {p : α → Bool} {l : List α} {i : Nat}
    (h : l.findIdx? p = some i) : i < l.length :=
  (List.findIdx?_eq_some_iff_findIdx_eq.mp h).1

theorem enumFrom_find?_eq {q : Nat × α → Bool} {l : List α} {n i : Nat} {a : α}
    (h : (List.enumFrom n l).find? q = some (i, a)) :
    n ≤ i ∧ l[i - n]? = some a := by
  induction l generalizing n with
  | nil => simp at h
  | cons x xs ih =>
    simp only [List.enumFrom] at h
    by_cases hq : q (n, x)
    · rw [List.find?_cons_of_pos _ hq] at h
      have h1 : n = i ∧ x = a := by
        have := Option.some.inj h
        exact ⟨congrArg Prod.fst this, congrArg Prod.snd this⟩
      rcases h1 with ⟨rfl, rfl⟩
      simp
    · rw [List.find?_cons_of_neg _ hq] at h
      have := ih h
      refine ⟨by omega, ?_⟩
      have hd : i - n = (i - (n + 1)) + 1 := by omega
      rw [hd]
      simpa using this.2

theorem enum_find?_eq {q : Nat × α → Bool} {l : List α} {i : Nat} {a : α}
    (h : l.enum.find? q = some (i, a)) : i < l.length ∧ l[i]? = some a := by
  have h' : (List.enumFrom 0 l).find? q = some (i, a) := h
  have := (enumFrom_find?_eq h').2
  simp only [Nat.sub_zero] at this
  exact ⟨(List.getElem?_eq_some_iff.mp this).1, this⟩

/-! ## Frame lemmas for `addLog` and `endRound` -/

@[simp] theorem addLog_players (s : GameSession) (m : String) :
    (addLog s m).players = s.players := rfl

@[simp] theorem addLog_deck (s : GameSession) (m : String) :
    (addLog s m).deck = s.deck := rfl

@[simp] theorem addLog_discardPile (s : GameSession) (m : String) :
    (addLog s m).discardPile = s.discardPile := rfl

@[simp] theorem addLog_turnIndex (s : GameSession) (m : String) :
    (addLog s m).turnIndex = s.turnIndex := rfl

@[simp] theorem addLog_dealerIndex (s : GameSession) (m : String) :
    (addLog s m).dealerIndex = s.dealerIndex := rfl

@[simp] theorem addLog_phase (s : GameSession) (m : String) :
    (addLog s m).phase = s.phase := rfl

@[simp] theorem addLog_sidePot (s : GameSession) (m : String) :
    (addLog s m).sidePot = s.sidePot := rfl

@[simp] theorem addLog_status (s : GameSession) (m : String) :
    (addLog s m).status = s.status := rfl

@[simp] theorem addLog_roundResults (s : GameSession) (m : String) :
    (addLog s m).roundResults = s.roundResults := rfl

@[simp] theorem addLog_winnerOfPreviousHand (s : GameSession) (m : String) :
    (addLog s m).winnerOfPreviousHand = s.winnerOfPreviousHand := rfl

/-- `endRound` only writes `status`, `winnerOfPreviousHand`, `roundResults`
and the log: every other field of the session is unchanged, for every
winner argument and end type. -/
theorem endRound_frame (s : GameSession) (w : Option Player) (t : String) :
    (endRound s w t).players = s.players ∧
    (endRound s w t).deck = s.deck ∧
    (endRound s w t).discardPile = s.discardPile ∧
    (endRound s w t).turnIndex = s.turnIndex ∧
    (endRound s w t).dealerIndex = s.dealerIndex ∧
    (endRound s w t).phase = s.phase ∧
    (endRound s w t).sidePot = s.sidePot ∧
    (endRound s w t).status = Status.ended := by
  unfold endRound
  dsimp only
  repeat' split
  all_goals refine ⟨?_, ?_, ?_, ?_, ?_, ?_, ?_, ?_⟩ <;> rfl

@[simp] theorem endRound_players (s : GameSession) (w : Option Player) (t : String) :
    (endRound s w t).players = s.players := (endRound_frame s w t).1

@[simp] theorem endRound_deck (s : GameSession) (w : Option Player) (t : String) :
    (endRound s w t).deck = s.deck := (endRound_frame s w t).2.1

@[simp] theorem endRound_discardPile (s : GameSession) (w : Option Player) (t : String) :
    (endRound s w t).discardPile = s.discardPile := (endRound_frame s w t).2.2.1

@[simp] theorem endRound_turnIndex (s : GameSession) (w : Option Player) (t : String) :
    (endRound s w t).turnIndex = s.turnIndex := (endRound_frame s w t).2.2.2.1

@[simp] theorem endRound_dealerIndex (s : GameSession) (w : Option Player) (t : String) :
    (endRound s w t).dealerIndex = s.dealerIndex := (endRound_frame s w t).2.2.2.2.1

@[simp] theorem endRound_phase (s : GameSession) (w : Option Player) (t : String) :
    (endRound s w t).phase = s.phase := (endRound_frame s w t).2.2.2.2.2.1

@[simp] theorem endRound_sidePot (s : GameSession) (w : Option Player) (t : String) :
    (endRound s w t).sidePot = s.sidePot := (endRound_frame s w t).2.2.2.2.2.2.1

@[simp] theorem endRound_status (s : GameSession) (w : Option Player) (t : String) :
    (endRound s w t).status = Status.ended := (endRound_frame s w t).2.2.2.2.2.2.2

/-- `endRound` never moves a card. -/
theorem cardCount_endRound (s : GameSession) (w : Option Player) (t : String) :
    cardCount (endRound s w t) = cardCount s := by
  obtain ⟨hp, hd, hdp, -, -, -, -, -⟩ := endRound_frame s w t
  unfold cardCount
  rw [hp, hd, hdp]

/-- `addLog` never moves a card. -/
theorem cardCount_addLog (s : GameSession) (m : String) :
    cardCount (addLog s m) = cardCount s := rfl

/-! ## Per-mutator conservation and chip-frame lemmas -/

theorem drawFromStock_count {s : GameSession} {pid : String} {b : Bool}
    {s' : GameSession} (h : drawFromStock s pid = .ok b s') :
    cardCount s' = cardCount s := by
  unfold drawFromStock at h
  split at h
  · cases h; rfl
  · rename_i hcur
    split at h
    · exact absurd h (by simp)
    · rename_i player hsome
      split at h
      · cases h; rfl
      · split at h
        · cases h; rfl
        · rename_i card hlast
          obtain ⟨hti, hpl⟩ := List.getElem?_eq_some_iff.mp hsome
          have hdeckne : s.deck ≠ [] := by
            intro hnil
            rw [hnil] at hlast
            simp at hlast
          have hdlen : s.deck.dropLast.length + 1 = s.deck.length := by
            rw [List.length_dropLast]
            have := List.length_pos_of_ne_nil hdeckne
            omega
          have hsum := sum_map_updAt s.players s.turnIndex
            (fun p => { p with hand := p.hand ++ [card] })
            (fun p => p.hand.length) hti
          have hmd := map_updAt_invariant s.players s.turnIndex
            (fun p => { p with hand := p.hand ++ [card] }) meldCardCount
            (fun p => rfl)
          dsimp only at h
          split at h <;> cases h
          · rw [cardCount_endRound, cardCount_addLog, cardCount_addLog]
            unfold cardCount
            dsimp only
            rw [hmd, hpl] at *
            simp only [List.length_append, List.length_cons, List.length_nil] at hsum
            omega
          · rw [cardCount_addLog]
            unfold cardCount
            dsimp only
            rw [hmd, hpl] at *
            simp only [List.length_append, List.length_cons, List.length_nil] at hsum
            omega

theorem drawFromStock_chips {s : GameSession} {pid : String} {b : Bool}
    {s' : GameSession} (h : drawFromStock s pid = .ok b s') :
    s'.players.map (fun p => p.chips) = s.players.map (fun p => p.chips) ∧
      s'.sidePot = s.sidePot := by
  unfold drawFromStock at h
  split at h
  · cases h; exact ⟨rfl, rfl⟩
  · split at h
    · exact absurd h (by simp)
    · rename_i player hsome
      split at h
      · cases h; exact ⟨rfl, rfl⟩
      · split at h
        · cases h; exact ⟨rfl, rfl⟩
        · rename_i card hlast
          have hch := map_updAt_invariant s.players s.turnIndex
            (fun p => { p with hand := p.hand ++ [card] }) (fun p => p.chips)
            (fun p => rfl)
          dsimp only at h
          split at h <;> cases h
          · exact ⟨by simp [hch], by simp⟩
          · exact ⟨by simp [hch], by simp⟩

theorem filterMap_id_length {l : List (Option α)} (h : ∀ x ∈ l, x.isSome) :
    (l.filterMap id).length = l.length := by
  induction l with
  | nil => rfl
  | cons x xs ih =>
    cases x with
    | none => exact absurd (h none (by simp)) (by simp)
    | some a => simp [List.filterMap_cons, ih (fun y hy => h y (by simp [hy]))]

theorem meldCardCount_update (p : Player) (hnd : List Card) (cs : List Card) (ho : Bool) :
    meldCardCount
      { p with hand := hnd, hasOpened := ho,
               exposedMelds := p.exposedMelds ++
                 [{ cards := cs, isSecret := false, isSapawedByOthers := false }] } =
      meldCardCount p + cs.length := by
  unfold meldCardCount
  dsimp only
  rw [List.map_append, List.sum_append]
  simp

theorem drawFromDiscard_count {s : GameSession} {pid : String} {idxs : List Nat}
    {b : Bool} {s' : GameSession} (hnd : idxs.Nodup)
    (hbnd : ∀ i ∈ idxs, i < curHandLen s)
    (h : drawFromDiscard s pid idxs = .ok b s') : cardCount s' = cardCount s := by
  unfold drawFromDiscard at h
  split at h
  · cases h; rfl
  · rename_i hguard
    split at h
    · exact absurd h (by simp)
    · rename_i player hsome
      split at h
      · cases h; rfl
      · split at h
        · cases h; rfl
        · rename_i topCard hlast
          have hpilene : s.discardPile ≠ [] := by
            intro hnil
            rw [hnil] at hlast
            simp at hlast
          have hplen : s.discardPile.dropLast.length + 1 = s.discardPile.length := by
            rw [List.length_dropLast]
            have := List.length_pos_of_ne_nil hpilene
            omega
          obtain ⟨hti, hpl⟩ := List.getElem?_eq_some_iff.mp hsome
          have hbnd' : ∀ i ∈ idxs, i < player.hand.length := by
            intro i hi
            have := hbnd i hi
            unfold curHandLen at this
            rw [hsome] at this
            exact this
          dsimp only at h
          split at h
          · exact absurd h (by simp)
          · -- successful meld: cards move from hand and pile into the new meld
            cases h
            rw [cardCount_addLog]
            unfold cardCount
            dsimp only
            have hsum := sum_map_updAt s.players s.turnIndex
              (fun p =>
                { p with hand := removeIdxs p.hand idxs,
                         exposedMelds := p.exposedMelds ++
                           [{ cards := ((idxs.map (fun i => player.hand[i]?)) ++
                                [some topCard]).filterMap id, isSecret := false,
                              isSapawedByOthers := false }],
                         hasOpened := true })
              (fun p => p.hand.length) hti
            have hmsum := sum_map_updAt s.players s.turnIndex
              (fun p =>
                { p with hand := removeIdxs p.hand idxs,
                         exposedMelds := p.exposedMelds ++
                           [{ cards := ((idxs.map (fun i => player.hand[i]?)) ++
                                [some topCard]).filterMap id, isSecret := false,
                              isSapawedByOthers := false }],
                         hasOpened := true })
              meldCardCount hti
            rw [hpl] at hsum hmsum
            have hrm : (removeIdxs player.hand idxs).length + idxs.length =
                player.hand.length := by
              apply removeIdxsFrom_length player.hand idxs 0 hnd
              intro i hi
              exact ⟨Nat.zero_le i, by simpa using hbnd' i hi⟩
            have hml : (((idxs.map (fun i => player.hand[i]?)) ++
                [some topCard]).filterMap id).length = idxs.length + 1 := by
              rw [filterMap_id_length]
              · simp
              · intro x hx
                rcases List.mem_append.mp hx with hx1 | hx2
                · rcases List.mem_map.mp hx1 with ⟨i, hi, rfl⟩
                  rw [List.getElem?_eq_getElem (hbnd' i hi)]
                  rfl
                · simp only [List.mem_singleton] at hx2
                  rw [hx2]
                  rfl
            dsimp only at hsum hmsum
            rw [meldCardCount_update, hml] at hmsum
            omega
          · -- failed meld: the popped card is pushed back
            cases h
            unfold cardCount
            dsimp only
            rw [List.length_append]
            simp only [List.length_cons, List.length_nil]
            omega

theorem drawFromDiscard_chips {s : GameSession} {pid : String} {idxs : List Nat}
    {b : Bool} {s' : GameSession} (h : drawFromDiscard s pid idxs = .ok b s') :
    s'.players.map (fun p => p.chips) = s.players.map (fun p => p.chips) ∧
      s'.sidePot = s.sidePot := by
  unfold drawFromDiscard at h
  split at h
  · cases h; exact ⟨rfl, rfl⟩
  · split at h
    · exact absurd h (by simp)
    · rename_i player hsome
      split at h
      · cases h; exact ⟨rfl, rfl⟩
      · split at h
        · cases h; exact ⟨rfl, rfl⟩
        · rename_i topCard hlast
          dsimp only at h
          split at h
          · exact absurd h (by simp)
          · cases h
            have hch := map_updAt_invariant s.players s.turnIndex
              (fun p =>
                { p with hand := removeIdxs p.hand idxs,
                         exposedMelds := p.exposedMelds ++
                           [{ cards := ((idxs.map (fun i => player.hand[i]?)) ++
                                [some topCard]).filterMap id, isSecret := false,
                              isSapawedByOthers := false }],
                         hasOpened := true })
              (fun p => p.chips) (fun p => rfl)
            exact ⟨by simpa using hch, rfl⟩
          · cases h
            exact ⟨rfl, rfl⟩

theorem discard_count {s : GameSession} {pid : String} {ci : Nat} {b : Bool}
    {s' : GameSession} (h : discard s pid ci = .ok b s') :
    cardCount s' = cardCount s := by
  unfold discard at h
  split at h
  · cases h; rfl
  · split at h
    · exact absurd h (by simp)
    · rename_i player hsome
      split at h
      · cases h; rfl
      · split at h
        · exact absurd h (by simp)
        · rename_i card hci
          obtain ⟨hti, hpl⟩ := List.getElem?_eq_some_iff.mp hsome
          obtain ⟨hcilt, -⟩ := List.getElem?_eq_some_iff.mp hci
          have hsum := sum_map_updAt s.players s.turnIndex
            (fun p => { p with hand := player.hand.take ci ++ player.hand.drop (ci + 1) })
            (fun p => p.hand.length) hti
          have hmd := map_updAt_invariant s.players s.turnIndex
            (fun p => { p with hand := player.hand.take ci ++ player.hand.drop (ci + 1) })
            meldCardCount (fun p => rfl)
          rw [hpl] at hsum
          dsimp only at hsum
          have hnewlen : (player.hand.take ci ++ player.hand.drop (ci + 1)).length + 1 =
              player.hand.length := by
            rw [List.length_append, List.length_take, List.length_drop]
            omega
          dsimp only at h
          split at h <;> cases h
          · rw [cardCount_endRound, cardCount_addLog]
            unfold cardCount
            dsimp only
            rw [hmd, List.length_append]
            simp only [List.length_cons, List.length_nil]
            omega
          · unfold cardCount
            dsimp only
            simp only [addLog_players, addLog_deck, addLog_discardPile]
            rw [hmd, List.length_append]
            simp only [List.length_cons, List.length_nil]
            omega

theorem discard_chips {s : GameSession} {pid : String} {ci : Nat} {b : Bool}
    {s' : GameSession} (h : discard s pid ci = .ok b s') :
    s'.players.map (fun p => p.chips) = s.players.map (fun p => p.chips) ∧
      s'.sidePot = s.sidePot := by
  unfold discard at h
  split at h
  · cases h; exact ⟨rfl, rfl⟩
  · split at h
    · exact absurd h (by simp)
    · rename_i player hsome
      split at h
      · cases h; exact ⟨rfl, rfl⟩
      · split at h
        · exact absurd h (by simp)
        · rename_i card hci
          have hch := map_updAt_invariant s.players s.turnIndex
            (fun p => { p with hand := player.hand.take ci ++ player.hand.drop (ci + 1) })
            (fun p => p.chips) (fun p => rfl)
          dsimp only at h
          split at h <;> cases h
          · exact ⟨by simp [hch], by simp⟩
          · exact ⟨by simp [hch], by simp⟩

theorem exposeMeld_count {s : GameSession} {pid : String} {idxs : List Nat}
    {b : Bool} {s' : GameSession} (hnd : idxs.Nodup)
    (hbnd : ∀ i ∈ idxs, i < curHandLen s)
    (h : exposeMeld s pid idxs = .ok b s') : cardCount s' = cardCount s := by
  unfold exposeMeld at h
  split at h
  · cases h; rfl
  · split at h
    · exact absurd h (by simp)
    · rename_i player hsome
      split at h
      · cases h; rfl
      · obtain ⟨hti, hpl⟩ := List.getElem?_eq_some_iff.mp hsome
        have hbnd' : ∀ i ∈ idxs, i < player.hand.length := by
          intro i hi
          have := hbnd i hi
          unfold curHandLen at this
          rw [hsome] at this
          exact this
        dsimp only at h
        split at h
        · exact absurd h (by simp)
        · cases h; rfl
        · -- successful exposure
          have hsplice : ((sortCmp descNatCmp idxs).foldl spliceRemove player.hand).length +
              idxs.length = player.hand.length := by
            have hperm := sortCmp_perm descNatCmp idxs
            have := foldl_spliceRemove_length (sortCmp descNatCmp idxs) player.hand
              (sortCmp_desc_strict idxs hnd)
              (fun d hd => hbnd' d (hperm.mem_iff.mp hd))
            rw [hperm.length_eq] at this
            exact this
          have hml : ((idxs.map (fun i => player.hand[i]?)).filterMap id).length =
              idxs.length := by
            rw [filterMap_id_length]
            · simp
            · intro x hx
              rcases List.mem_map.mp hx with ⟨i, hi, rfl⟩
              rw [List.getElem?_eq_getElem (hbnd' i hi)]
              rfl
          have hsum := sum_map_updAt s.players s.turnIndex
            (fun p =>
              { p with hand := (sortCmp descNatCmp idxs).foldl spliceRemove player.hand,
                       exposedMelds := p.exposedMelds ++
                         [{ cards := (idxs.map (fun i => player.hand[i]?)).filterMap id,
                            isSecret := false, isSapawedByOthers := false }],
                       hasOpened := true })
            (fun p => p.hand.length) hti
          have hmsum := sum_map_updAt s.players s.turnIndex
            (fun p =>
              { p with hand := (sortCmp descNatCmp idxs).foldl spliceRemove player.hand,
                       exposedMelds := p.exposedMelds ++
                         [{ cards := (idxs.map (fun i => player.hand[i]?)).filterMap id,
                            isSecret := false, isSapawedByOthers := false }],
                       hasOpened := true })
            meldCardCount hti
          rw [hpl] at hsum hmsum
          dsimp only at hsum hmsum
          rw [meldCardCount_update, hml] at hmsum
          split at h <;> cases h
          · rw [cardCount_endRound, cardCount_addLog]
            unfold cardCount
            dsimp only
            omega
          · rw [cardCount_addLog]
            unfold cardCount
            dsimp only
            omega

theorem exposeMeld_chips {s : GameSession} {pid : String} {idxs : List Nat}
    {b : Bool} {s' : GameSession} (h : exposeMeld s pid idxs = .ok b s') :
    s'.players.map (fun p => p.chips) = s.players.map (fun p => p.chips) ∧
      s'.sidePot = s.sidePot := by
  unfold exposeMeld at h
  split at h
  · cases h; exact ⟨rfl, rfl⟩
  · split at h
    · exact absurd h (by simp)
    · rename_i player hsome
      split at h
      · cases h; exact ⟨rfl, rfl⟩
      · dsimp only at h
        split at h
        · exact absurd h (by simp)
        · cases h; exact ⟨rfl, rfl⟩
        · have hch := map_updAt_invariant s.players s.turnIndex
            (fun p =>
              { p with hand := (sortCmp descNatCmp idxs).foldl spliceRemove player.hand,
                       exposedMelds := p.exposedMelds ++
                         [{ cards := (idxs.map (fun i => player.hand[i]?)).filterMap id,
                            isSecret := false, isSapawedByOthers := false }],
                       hasOpened := true })
            (fun p => p.chips) (fun p => rfl)
          split at h <;> cases h
          · exact ⟨by simpa using hch, by simp⟩
          · exact ⟨by simpa using hch, by simp⟩

theorem meldCardCount_setCards (p : Player) (mi : Nat) (newCards : List Card)
    (hmi : mi < p.exposedMelds.length) :
    meldCardCount
        { p with
          exposedMelds := updAt p.exposedMelds mi (fun m => { m with cards := newCards }) } +
      p.exposedMelds[mi].cards.length = meldCardCount p + newCards.length := by
  unfold meldCardCount
  dsimp only
  exact sum_map_updAt p.exposedMelds mi (fun m => { m with cards := newCards })
    (fun m => m.cards.length) hmi

theorem sapaw_count {s : GameSession} {pid tid : String} {mi ci : Nat} {b : Bool}
    {s' : GameSession} (h : sapaw s pid tid mi ci = .ok b s') :
    cardCount s' = cardCount s := by
  unfold sapaw at h
  split at h
  · cases h; rfl
  · split at h
    · exact absurd h (by simp)
    · rename_i player hsome
      split at h
      · cases h; rfl
      · split at h
        · cases h; rfl
        · rename_i tp tIdx targetPlayer hfind
          split at h
          · cases h; rfl
          · rename_i meld hmeld
            split at h
            · exact absurd h (by simp)
            · cases h; rfl
            · exact absurd h (by simp)
            · rename_i card hlay hci
              obtain ⟨hti, hpl⟩ := List.getElem?_eq_some_iff.mp hsome
              obtain ⟨hcilt, -⟩ := List.getElem?_eq_some_iff.mp hci
              obtain ⟨htilt, htp⟩ := enum_find?_eq hfind
              obtain ⟨hmilt, hmeld'⟩ := List.getElem?_eq_some_iff.mp hmeld
              dsimp only at h
              generalize hNC : (if isRun (meld.cards ++ [card]) = true
                then sortCmp byRankIndex (meld.cards ++ [card])
                else meld.cards ++ [card]) = NC at h
              have hNClen : NC.length = meld.cards.length + 1 := by
                rw [← hNC]
                split
                · rw [(sortCmp_perm byRankIndex (meld.cards ++ [card])).length_eq]
                  simp
                · simp
              have hsplen := spliceRemove_length player.hand ci hcilt
              have hsum := sum_map_updAt s.players s.turnIndex
                (fun p => { p with hand := spliceRemove player.hand ci })
                (fun p => p.hand.length) hti
              rw [hpl] at hsum
              dsimp only at hsum
              have hmd1 := map_updAt_invariant s.players s.turnIndex
                (fun p => { p with hand := spliceRemove player.hand ci })
                meldCardCount (fun p => rfl)
              have htilt1 : tIdx < (updAt s.players s.turnIndex
                  (fun p => { p with hand := spliceRemove player.hand ci })).length := by
                rw [updAt_length]
                exact htilt
              obtain ⟨q, hq, hqm⟩ : ∃ q, (updAt s.players s.turnIndex
                  (fun p => { p with hand := spliceRemove player.hand ci }))[tIdx]? = some q ∧
                    q.exposedMelds = targetPlayer.exposedMelds := by
                by_cases hc : tIdx = s.turnIndex
                · subst hc
                  refine ⟨_, getElem?_updAt_self s.players s.turnIndex
                    (fun p => { p with hand := spliceRemove player.hand ci }) hti, ?_⟩
                  have : targetPlayer = player := by
                    rw [List.getElem?_eq_getElem hti, hpl] at htp
                    exact (Option.some.inj htp).symm
                  rw [this, hpl]
                · refine ⟨targetPlayer, ?_, rfl⟩
                  rw [getElem?_updAt_ne s.players s.turnIndex tIdx _ hc]
                  exact htp
              obtain ⟨htq, hq'⟩ := List.getElem?_eq_some_iff.mp hq
              have hmsum := sum_map_updAt (updAt s.players s.turnIndex
                  (fun p => { p with hand := spliceRemove player.hand ci })) tIdx
                (fun p =>
                  { p with exposedMelds := updAt p.exposedMelds mi (fun m => { m with cards := NC }) })
                meldCardCount htilt1
              rw [hq'] at hmsum
              have hqmi : mi < q.exposedMelds.length := by rw [hqm]; exact hmilt
              have hqmeld : q.exposedMelds[mi] = meld := by
                have h1 : q.exposedMelds[mi]? = some meld := by
                  rw [hqm, List.getElem?_eq_getElem hmilt, hmeld']
                exact (List.getElem?_eq_some_iff.mp h1).2
              have hset := meldCardCount_setCards q mi NC hqmi
              rw [hqmeld, hNClen] at hset
              have hmd1' : (List.map meldCardCount (updAt s.players s.turnIndex
                  (fun p => { p with hand := spliceRemove player.hand ci }))).sum =
                  (List.map meldCardCount s.players).sum := by rw [hmd1]
              have hhand2 := map_updAt_invariant (updAt s.players s.turnIndex
                  (fun p => { p with hand := spliceRemove player.hand ci })) tIdx
                (fun p =>
                  { p with exposedMelds := updAt p.exposedMelds mi (fun m => { m with cards := NC }) })
                (fun p => p.hand.length) (fun p => rfl)
              split at h <;> cases h
              · rw [cardCount_endRound, cardCount_addLog]
                unfold cardCount
                dsimp only
                rw [hhand2]
                omega
              · rw [cardCount_addLog]
                unfold cardCount
                dsimp only
                rw [hhand2]
                omega

theorem sapaw_chips {s : GameSession} {pid tid : String} {mi ci : Nat} {b : Bool}
    {s' : GameSession} (h : sapaw s pid tid mi ci = .ok b s') :
    s'.players.map (fun p => p.chips) = s.players.map (fun p => p.chips) ∧
      s'.sidePot = s.sidePot := by
  unfold sapaw at h
  split at h
  · cases h; exact ⟨rfl, rfl⟩
  · split at h
    · exact absurd h (by simp)
    · rename_i player hsome
      split at h
      · cases h; exact ⟨rfl, rfl⟩
      · split at h
        · cases h; exact ⟨rfl, rfl⟩
        · rename_i tp tIdx targetPlayer hfind
          split at h
          · cases h; exact ⟨rfl, rfl⟩
          · rename_i meld hmeld
            split at h
            · exact absurd h (by simp)
            · cases h; exact ⟨rfl, rfl⟩
            · exact absurd h (by simp)
            · rename_i card hlay hci
              dsimp only at h
              generalize (if isRun (meld.cards ++ [card]) = true
                then sortCmp byRankIndex (meld.cards ++ [card])
                else meld.cards ++ [card]) = NC at h
              have hch1 := map_updAt_invariant s.players s.turnIndex
                (fun p => { p with hand := spliceRemove player.hand ci })
                (fun p => p.chips) (fun p => rfl)
              have hch2 := map_updAt_invariant (updAt s.players s.turnIndex
                  (fun p => { p with hand := spliceRemove player.hand ci })) tIdx
                (fun p =>
                  { p with exposedMelds := updAt p.exposedMelds mi (fun m => { m with cards := NC }) })
                (fun p => p.chips) (fun p => rfl)
              split at h <;> cases h
              · refine ⟨?_, by simp⟩
                simp only [endRound_players, addLog_players]
                rw [hch2, hch1]
              · refine ⟨?_, by simp⟩
                simp only [addLog_players]
                rw [hch2, hch1]

theorem dealToEach_spec (players : List Player) (deck : List Card)
    (h : players.length ≤ deck.length) :
    (dealToEach players deck).1.length = players.length ∧
    ((dealToEach players deck).1.map (fun p => p.hand.length)).sum =
      (players.map (fun p => p.hand.length)).sum + players.length ∧
    (dealToEach players deck).2.length + players.length = deck.length ∧
    (dealToEach players deck).1.map meldCardCount = players.map meldCardCount := by
  induction players generalizing deck with
  | nil => simp [dealToEach]
  | cons p rest ih =>
    have hdne : deck ≠ [] := by
      intro hnil
      rw [hnil] at h
      simp at h
    obtain ⟨c, hc⟩ : ∃ c, deck.getLast? = some c := by
      cases hg : deck.getLast? with
      | none => exact absurd (List.getLast?_eq_none_iff.mp hg) hdne
      | some c => exact ⟨c, rfl⟩
    have hdpos : 0 < deck.length := List.length_pos_of_ne_nil hdne
    have hlen : rest.length ≤ deck.dropLast.length := by
      rw [List.length_dropLast]
      simp only [List.length_cons] at h
      omega
    obtain ⟨ih1, ih2, ih3, ih4⟩ := ih deck.dropLast hlen
    simp only [dealToEach, hc]
    refine ⟨by simpa using ih1, ?_, ?_, ?_⟩
    · simp only [List.map_cons, List.sum_cons, List.length_cons, List.length_append,
        List.length_nil]
      omega
    · rw [List.length_dropLast] at ih3
      simp only [List.length_cons]
      omega
    · simp only [List.map_cons, ih4]
      rfl

theorem dealRounds_spec (n : Nat) (players : List Player) (deck : List Card)
    (h : players.length * n ≤ deck.length) :
    (dealRounds players deck n).1.length = players.length ∧
    ((dealRounds players deck n).1.map (fun p => p.hand.length)).sum =
      (players.map (fun p => p.hand.length)).sum + players.length * n ∧
    (dealRounds players deck n).2.length + players.length * n = deck.length ∧
    (dealRounds players deck n).1.map meldCardCount = players.map meldCardCount := by
  induction n generalizing players deck with
  | zero => simp [dealRounds]
  | succ m ih =>
    rw [Nat.mul_succ] at h
    have h1 : players.length ≤ deck.length := by omega
    obtain ⟨d1, d2, d3, d4⟩ := dealToEach_spec players deck h1
    have hlen : (dealToEach players deck).1.length * m ≤
        (dealToEach players deck).2.length := by
      rw [d1]
      omega
    obtain ⟨r1, r2, r3, r4⟩ := ih (dealToEach players deck).1 (dealToEach players deck).2 hlen
    rw [d1] at r1 r3
    simp only [dealRounds]
    refine ⟨r1, ?_, ?_, by rw [r4, d4]⟩
    · rw [r2, d2, d1, Nat.mul_succ]
      omega
    · rw [Nat.mul_succ]
      omega

set_option maxHeartbeats 1000000 in
theorem startRound_count {s : GameSession} {shuffled : List Card} {rd : Nat}
    {s' : GameSession} (hp : s.players.length = 3) (hsh : shuffled.length = 52)
    (h : startRound s shuffled rd = .ok true s') : cardCount s' = 52 := by
  unfold startRound at h
  split at h
  · exact absurd h (by simp)
  · dsimp only at h
    generalize hA : s.players.map (fun p =>
      { p with chips := p.chips - 2, hand := [], exposedMelds := [],
               hasOpened := false, isBurned := false }) = A at h
    split at h
    · exact absurd h (by simp)
    · rename_i dealerIndex hdidx
      have hanted : A.length = 3 := by rw [← hA, List.length_map, hp]
      have hdlt : dealerIndex < 3 := by
        rcases hw : s.winnerOfPreviousHand with - | wid
        · rw [hw] at hdidx
          have := Option.some.inj hdidx
          omega
        · rw [hw] at hdidx
          have := findIdx?_lt_length hdidx
          rw [hanted] at this
          exact this
      obtain ⟨d1, d2, d3, d4⟩ := dealRounds_spec 12 A shuffled
        (by rw [hanted, hsh]; omega)
      rw [hanted] at d1 d2 d3
      have hdne : (dealRounds A shuffled 12).2 ≠ [] := by
        intro hnil
        rw [hnil] at d3
        simp only [List.length_nil] at d3
        omega
      obtain ⟨c, hc⟩ : ∃ c, (dealRounds A shuffled 12).2.getLast? = some c := by
        cases hg : (dealRounds A shuffled 12).2.getLast? with
        | none => exact absurd (List.getLast?_eq_none_iff.mp hg) hdne
        | some c => exact ⟨c, rfl⟩
      rw [hc] at h
      have hzero : (A.map (fun p => p.hand.length)).sum = 0 := by
        rw [← hA, List.map_map]
        have hcomp : ((fun p => p.hand.length) ∘ (fun p : Player =>
            { p with chips := p.chips - 2, hand := [], exposedMelds := [],
                     hasOpened := false, isBurned := false })) = fun _ => 0 := by
          funext p
          rfl
        rw [hcomp]
        simp
      have hmzero : ((dealRounds A shuffled 12).1.map meldCardCount).sum = 0 := by
        rw [d4, ← hA, List.map_map]
        have hcomp : (meldCardCount ∘ (fun p : Player =>
            { p with chips := p.chips - 2, hand := [], exposedMelds := [],
                     hasOpened := false, isBurned := false })) = fun _ => 0 := by
          funext p
          rfl
        rw [hcomp]
        simp
      have hdlt' : dealerIndex < (dealRounds A shuffled 12).1.length := by
        rw [d1]
        exact hdlt
      have hsum := sum_map_updAt (dealRounds A shuffled 12).1 dealerIndex
        (fun p => { p with hand := p.hand ++ [c] }) (fun p => p.hand.length) hdlt'
      have hmupd := map_updAt_invariant (dealRounds A shuffled 12).1 dealerIndex
        (fun p => { p with hand := p.hand ++ [c] }) meldCardCount (fun p => rfl)
      split at h
      · exact absurd h (by simp)
      · cases h
        rw [cardCount_addLog]
        unfold cardCount
        dsimp only
        rw [hmupd, List.length_dropLast]
        rw [hzero] at d2
        simp only [List.length_append, List.length_cons, List.length_nil] at hsum
        rw [hmzero]
        simp only [List.length_nil]
        omega

/-- Dispatch of the per-mutator conservation lemmas. -/
theorem applyAction_count {s : GameSession} {a : GameAction} {b : Bool}
    {s' : GameSession} (hv : ValidAction s a) (h : applyAction s a = .ok b s') :
    cardCount s' = cardCount s := by
  cases a with
  | dstock pid => exact drawFromStock_count h
  | ddiscard pid idxs => exact drawFromDiscard_count hv.1 hv.2 h
  | disc pid i => exact discard_count h
  | expose pid idxs => exact exposeMeld_count hv.1 hv.2 h
  | sap pid tid mi ci => exact sapaw_count h

/-- Dispatch of the per-mutator chip/side-pot frame lemmas (no validity
needed: every boolean-returning path leaves chips and the side pot alone). -/
theorem applyAction_chips {s : GameSession} {a : GameAction} {b : Bool}
    {s' : GameSession} (h : applyAction s a = .ok b s') :
    s'.players.map (fun p => p.chips) = s.players.map (fun p => p.chips) ∧
      s'.sidePot = s.sidePot := by
  cases a with
  | dstock pid => exact drawFromStock_chips h
  | ddiscard pid idxs => exact drawFromDiscard_chips h
  | disc pid i => exact discard_chips h
  | expose pid idxs => exact exposeMeld_chips h
  | sap pid tid mi ci => exact sapaw_chips h

/-! ## Claim theorems -/

/-- C1 (counterexample): the card-conservation claim as stated is false.
In a round started with 3 seats (`startRound` from the lobby with a legal
52-card shuffle), after the dealer's discard the total is still 52, but a
single `drawFromDiscard` call that passes the duplicated index list
`[0, 0, 1]` RETURNS TRUE and leaves the round with 53 counted cards: the
meld stores the card at index 0 twice while the hand filter removes each
index once. -/
theorem c1_counterexample :
    startRound scenarioLobby scenarioPerm 0 = .ok true scenarioStart ∧
    discard scenarioStart "P1" 12 = .ok true scenarioAfterDiscard ∧
    drawFromDiscard scenarioAfterDiscard "P2" [0, 0, 1] = .ok true scenarioAfterDup ∧
    cardCount scenarioAfterDiscard = 52 ∧
    cardCount scenarioAfterDup = 53 :=
  ⟨rfl, rfl, rfl, by decide, by decide⟩

/-- C1 (amended): card conservation holds for every round started with 3
seats and every sequence of mutator calls whose card-index arguments are
in range for the active seat's hand and duplicate-free: `startRound` from
a 52-card shuffle establishes the 52-card total, every valid-argument
mutator call preserves the total, and hence every valid-argument command
trace keeps it at 52. -/
theorem c1_card_conservation :
    (∀ (s : GameSession) (shuffled : List Card) (rd : Nat) (s' : GameSession),
        s.players.length = 3 → shuffled.length = 52 →
        startRound s shuffled rd = .ok true s' → cardCount s' = 52) ∧
    (∀ (s : GameSession) (a : GameAction) (b : Bool) (s' : GameSession),
        ValidAction s a → applyAction s a = .ok b s' →
        cardCount s' = cardCount s) ∧
    (∀ (s : GameSession) (acts : List GameAction) (s' : GameSession),
        cardCount s = 52 → runValid s acts = some s' → cardCount s' = 52) := by
  refine ⟨fun s sh rd s' hp hsh h => startRound_count hp hsh h,
    fun s a b s' hv h => applyAction_count hv h, ?_⟩
  intro s acts
  induction acts generalizing s with
  | nil =>
    intro s' h52 hrun
    unfold runValid at hrun
    cases hrun
    exact h52
  | cons a rest ih =>
    intro s' h52 hrun
    unfold runValid at hrun
    split at hrun
    · rename_i hv
      split at hrun
      · rename_i b1 s1 happ
        exact ih s1 s' (by rw [applyAction_count hv happ]; exact h52) hrun
      · exact absurd hrun (by simp)
    · exact absurd hrun (by simp)

/-- C1 (witness for the amended theorem): the concrete reachable deal of
`scenarioStart` counts 52 cards, and the valid trace "dealer discards
index 12, next seat draws from stock" keeps the total at 52. -/
theorem c1_card_conservation_witness :
    cardCount scenarioStart = 52 ∧
    runValid scenarioStart [GameAction.disc "P1" 12, GameAction.dstock "P2"] =
      some scenarioTraceEnd ∧
    cardCount scenarioTraceEnd = 52 :=
  ⟨by decide, rfl,
    c1_card_conservation.2.2 scenarioStart
      [GameAction.disc "P1" 12, GameAction.dstock "P2"] scenarioTraceEnd
      (by decide) rfl⟩

/-- C10: a round termination through `endRound` (both `tongit` and
`deck-empty`) leaves every seat — in particular every chip balance — and
the side pot, deck, discard pile, turn pointer, dealer pointer and phase
unchanged (`endRound` writes only `status`, `winnerOfPreviousHand`,
`roundResults` and the log); and no Turn Engine mutator returning a
boolean ever changes a chip balance or the side pot — the Settlement
Engine's transfer (`calculateChips`) is invoked by none of them. -/
theorem c10_endRound_chip_frame :
    (∀ (s : GameSession) (w : Option Player) (t : String),
        (endRound s w t).players = s.players ∧
        (endRound s w t).sidePot = s.sidePot ∧
        (endRound s w t).deck = s.deck ∧
        (endRound s w t).discardPile = s.discardPile ∧
        (endRound s w t).turnIndex = s.turnIndex ∧
        (endRound s w t).dealerIndex = s.dealerIndex ∧
        (endRound s w t).phase = s.phase ∧
        (endRound s w t).status = Status.ended) ∧
    (∀ (s : GameSession) (a : GameAction) (b : Bool) (s' : GameSession),
        applyAction s a = .ok b s' →
        s'.players.map (fun p => p.chips) = s.players.map (fun p => p.chips) ∧
        s'.sidePot = s.sidePot) := by
  refine ⟨fun s w t => ?_, fun s a b s' h => applyAction_chips h⟩
  obtain ⟨h1, h2, h3, h4, h5, h6, h7, h8⟩ := endRound_frame s w t
  exact ⟨h1, h7, h2, h3, h4, h5, h6, h8⟩

/-- C10 (witness): the dealer's discard from the concrete dealt round
changes no chip balance and not the side pot. -/
theorem c10_endRound_chip_frame_witness :
    scenarioAfterDiscard.players.map (fun p => p.chips) =
      scenarioStart.players.map (fun p => p.chips) ∧
    scenarioAfterDiscard.sidePot = scenarioStart.sidePot :=
  c10_endRound_chip_frame.2 scenarioStart (GameAction.disc "P1" 12) true
    scenarioAfterDiscard rfl

/-- One step of the scorer loop realizes exactly the spec's payment
formula. -/
theorem scorerStep_spec (w : Player) (et : String) (acc : ScorerAcc) (l : Player) :
    scorerStep w et acc l =
      { losers := acc.losers ++ [{ l with chips := l.chips - paymentSpec w l et }]
        , exchanges := acc.exchanges ++ [⟨l.name, w.name, paymentSpec w l et⟩]
        , winnerTotal := acc.winnerTotal + paymentSpec w l et } := by
  unfold scorerStep paymentSpec
  dsimp only
  split_ifs <;>
    simp only [ScorerAcc.mk.injEq, Player.mk.injEq, ChipExchange.mk.injEq,
      List.append_cancel_left_eq, List.cons.injEq, and_true, true_and] <;>
    omega

theorem foldl_scorerStep (w : Player) (et : String) (losers : List Player)
    (acc : ScorerAcc) :
    (losers.foldl (scorerStep w et) acc).losers =
      acc.losers ++ losers.map (fun l => { l with chips := l.chips - paymentSpec w l et }) ∧
    (losers.foldl (scorerStep w et) acc).winnerTotal =
      acc.winnerTotal + (losers.map (fun l => paymentSpec w l et)).sum ∧
    (losers.foldl (scorerStep w et) acc).exchanges =
      acc.exchanges ++ losers.map (fun l =>
        (⟨l.name, w.name, paymentSpec w l et⟩ : ChipExchange)) := by
  induction losers generalizing acc with
  | nil => simp
  | cons l ls ih =>
    simp only [List.foldl_cons, scorerStep_spec, List.map_cons, List.sum_cons]
    obtain ⟨ih1, ih2, ih3⟩ := ih
      { losers := acc.losers ++ [{ l with chips := l.chips - paymentSpec w l et }]
        , exchanges := acc.exchanges ++ [⟨l.name, w.name, paymentSpec w l et⟩]
        , winnerTotal := acc.winnerTotal + paymentSpec w l et }
    refine ⟨?_, ?_, ?_⟩
    · rw [ih1]
      simp
    · rw [ih2]
      dsimp only
      ring
    · rw [ih3]
      simp

theorem zip_debit_sum (w : Player) (et : String) (losers : List Player) :
    ((losers.zip (losers.map (fun l =>
        { l with chips := l.chips - paymentSpec w l et }))).map
      (fun pq => pq.1.chips - pq.2.chips)).sum =
      (losers.map (fun l => paymentSpec w l et)).sum := by
  induction losers with
  | nil => simp
  | cons l ls ih =>
    simp only [List.map_cons, List.zip_cons_cons, List.sum_cons, ih]
    ring_nf

/-- C4: for every `Scorer.calculateChips(winner, losers, endType,
sidePotClaimed)` call, each loser is debited exactly the spec's payment
(3 for `tongit` or a challenged showdown else 1, plus the winner's aces
across hand and melds, plus 3 per winner meld flagged `isSecret`, plus 1
for a burned or never-opened loser); the winner is credited the sum of
all payments plus the side pot; and the loser debits sum to the winner's
credit excluding the side pot (zero-sum settlement). -/
theorem c4_settlement_payments :
    ∀ (winner : Player) (losers : List Player) (endType : String)
      (sidePotClaimed : Int),
      (calculateChips winner losers endType sidePotClaimed).losers =
        losers.map (fun l => { l with chips := l.chips - paymentSpec winner l endType }) ∧
      (calculateChips winner losers endType sidePotClaimed).winner.chips =
        winner.chips + (losers.map (fun l => paymentSpec winner l endType)).sum +
          sidePotClaimed ∧
      (calculateChips winner losers endType sidePotClaimed).winnerTotal =
        (losers.map (fun l => paymentSpec winner l endType)).sum ∧
      ((losers.zip (calculateChips winner losers endType sidePotClaimed).losers).map
          (fun pq => pq.1.chips - pq.2.chips)).sum =
        (calculateChips winner losers endType sidePotClaimed).winner.chips -
          winner.chips - sidePotClaimed := by
  intro w losers et sp
  obtain ⟨h1, h2, h3⟩ := foldl_scorerStep w et losers ⟨[], [], 0⟩
  simp only [List.nil_append] at h1 h2 h3
  have hcred : (calculateChips w losers et sp).winner.chips =
      w.chips + (losers.map (fun l => paymentSpec w l et)).sum + sp := by
    unfold calculateChips
    dsimp only
    rw [h2]
    by_cases hz : sp = 0
    · rw [hz]
      simp
    · rw [if_pos hz]
      ring
  refine ⟨?_, hcred, ?_, ?_⟩
  · unfold calculateChips
    dsimp only
    rw [h1]
  · unfold calculateChips
    dsimp only
    rw [h2]
    ring
  · have hl : (calculateChips w losers et sp).losers =
        losers.map (fun l => { l with chips := l.chips - paymentSpec w l et }) := by
      unfold calculateChips
      dsimp only
      rw [h1]
    rw [hl, zip_debit_sum, hcred]
    ring

/-! ## Bridging the `undefined`-aware meld checks to the pure ones -/

theorem everyRankEq_all_some (l : List (Option Card)) (r : Rank)
    (h : ∀ x ∈ l, x.isSome) :
    everyRankEq l r = some ((l.filterMap id).all (fun c => decide (c.rank = r))) := by
  induction l with
  | nil => rfl
  | cons x xs ih =>
    cases x with
    | none => exact absurd (h none (by simp)) (by simp)
    | some c =>
      simp only [everyRankEq, List.filterMap_cons]
      by_cases hc : c.rank = r
      · rw [if_pos hc, ih (fun y hy => h y (by simp [hy]))]
        simp [hc]
      · rw [if_neg hc]
        simp [hc]

theorem everySuitEq_all_some (l : List (Option Card)) (su : Suit)
    (h : ∀ x ∈ l, x.isSome) :
    everySuitEq l su = some ((l.filterMap id).all (fun c => decide (c.suit = su))) := by
  induction l with
  | nil => rfl
  | cons x xs ih =>
    cases x with
    | none => exact absurd (h none (by simp)) (by simp)
    | some c =>
      simp only [everySuitEq, List.filterMap_cons]
      by_cases hc : c.suit = su
      · rw [if_pos hc, ih (fun y hy => h y (by simp [hy]))]
        simp [hc]
      · rw [if_neg hc]
        simp [hc]

theorem isSetJS_all_some (l : List (Option Card)) (h : ∀ x ∈ l, x.isSome) :
    isSetJS l = some (isSet (l.filterMap id)) := by
  have hlen := filterMap_id_length h
  unfold isSetJS isSet
  rw [hlen]
  split
  · rfl
  · rename_i hguard
    cases l with
    | nil => rfl
    | cons x xs =>
      cases x with
      | none => exact absurd (h none (by simp)) (by simp)
      | some c =>
        dsimp only
        rw [everyRankEq_all_some _ _ h]
        simp only [List.filterMap_cons]
        rfl

theorem isRunJS_all_some (l : List (Option Card)) (h : ∀ x ∈ l, x.isSome) :
    isRunJS l = some (isRun (l.filterMap id)) := by
  have hlen := filterMap_id_length h
  unfold isRunJS isRun
  rw [hlen]
  split
  · rfl
  · cases l with
    | nil => rfl
    | cons x xs =>
      cases x with
      | none => exact absurd (h none (by simp)) (by simp)
      | some c =>
        dsimp only
        rw [everySuitEq_all_some _ _ h]
        simp only [List.filterMap_cons, id]
        cases hall : (c :: List.filterMap id xs).all (fun d => decide (d.suit = c.suit)) <;>
          simp [hall]

/-- Under in-range indices the meld check of `drawFromDiscard` /
`exposeMeld` is the pure set-or-run test of the denoted cards. -/
theorem orElseJS_all_some (l : List (Option Card)) (h : ∀ x ∈ l, x.isSome) :
    orElseJS (isSetJS l) (fun _ => isRunJS l) =
      some (isSet (l.filterMap id) || isRun (l.filterMap id)) := by
  rw [isSetJS_all_some l h]
  cases hs : isSet (l.filterMap id)
  · simp only [orElseJS, isRunJS_all_some l h]
    rfl
  · rfl

/-! ## `endRound` result characterization -/

theorem endRound_rtype (s : GameSession) (w : Option Player) (t : String) :
    ∃ rr : RoundResults, (endRound s w t).roundResults = some rr ∧ rr.rtype = t := by
  unfold endRound
  dsimp only
  repeat' split
  all_goals exact ⟨_, rfl, rfl⟩

/-- The `tongit` branch: the passed seat is recorded as the round winner
and every result row carries the seat's residual weight with the winner
flag set exactly on the winner's id. -/
theorem endRound_tongit (s : GameSession) (w : Player) :
    (endRound s (some w) "tongit").winnerOfPreviousHand = some w.id ∧
    (endRound s (some w) "tongit").roundResults = some
      { rtype := "tongit"
        , players := s.players.map (fun q =>
            { id := q.id, name := q.name, weight := calculateHandValue q.hand
              , bestCard := none, isWinner := decide (q.id = w.id) }) } := by
  unfold endRound
  rw [if_pos rfl]
  exact ⟨by simp, by simp⟩

/-- C7: `drawFromStock` by the active seat in `draw` phase with a
non-empty deck removes the deck's LAST card into that seat's hand, sets
the phase to `action` and returns true; when this leaves the deck empty
the round terminates immediately with outcome `deck-empty` (the draw
itself succeeding first), otherwise the round stays in play; with an
already-empty deck the call returns false and changes nothing
(`Deck.draw` yields nothing on an empty deck). -/
theorem c7_drawFromStock (s : GameSession) (p : Player)
    (hst : s.status = Status.playing)
    (hcur : s.players[s.turnIndex]? = some p) :
    (∀ c : Card, s.phase = Phase.draw → s.deck.getLast? = some c →
      ∃ s', drawFromStock s p.id = .ok true s' ∧
        s'.players = updAt s.players s.turnIndex
          (fun q => { q with hand := q.hand ++ [c] }) ∧
        s'.deck = s.deck.dropLast ∧
        s'.phase = Phase.action ∧
        s'.discardPile = s.discardPile ∧
        (s.deck.dropLast.length = 0 →
          s'.status = Status.ended ∧
          ∃ rr : RoundResults, s'.roundResults = some rr ∧ rr.rtype = "deck-empty") ∧
        (s.deck.dropLast.length ≠ 0 → s'.status = Status.playing)) ∧
    (s.phase = Phase.draw → s.deck = [] → drawFromStock s p.id = .ok false s) := by
  constructor
  · intro c hph hdeck
    unfold drawFromStock
    rw [if_neg (by simp [hst, hph]), hcur]
    dsimp only
    rw [if_neg (by simp), hdeck]
    dsimp only
    by_cases hz : s.deck.dropLast.length = 0
    · rw [if_pos hz]
      refine ⟨_, rfl, by simp, by simp, by simp, by simp, fun _ => ⟨by simp, ?_⟩,
        fun hcon => absurd hz hcon⟩
      exact endRound_rtype _ none "deck-empty"
    · rw [if_neg hz]
      exact ⟨_, rfl, by simp, by simp, by simp, by simp,
        fun hcon => absurd hcon hz, fun _ => by simp [hst]⟩
  · intro hph hdn
    unfold drawFromStock
    rw [if_neg (by simp [hst, hph]), hcur]
    dsimp only
    rw [if_neg (by simp), hdn]
    rfl

/-- C7 (witness): in the concrete dealt round, P2's stock draw succeeds,
keeps the round in play and pops exactly the deck's last card. -/
theorem c7_drawFromStock_witness :
    drawFromStock scenarioAfterDiscard "P2" = .ok true scenarioAfterStock ∧
    scenarioAfterStock.phase = Phase.action ∧
    scenarioAfterStock.status = Status.playing ∧
    scenarioAfterStock.deck = scenarioAfterDiscard.deck.dropLast := by
  have h := (c7_drawFromStock scenarioAfterDiscard scenarioP2 (by decide) (by decide)).1
    ((scenarioAfterDiscard.deck.getLast?).getD ⟨Suit.spade, Rank.A⟩) (by decide) (by decide)
  obtain ⟨s', h1, h2, h3, h4, h5, h6, h7⟩ := h
  have hid : scenarioP2.id = "P2" := by decide
  rw [hid] at h1
  have h0 : drawFromStock scenarioAfterDiscard "P2" = .ok true scenarioAfterStock := rfl
  rw [h0] at h1
  cases h1
  exact ⟨h0, h4, h7 (by decide), h3⟩

/-- C8: `discard` by the active seat in `action` phase with an in-range
index moves exactly the indicated hand card onto the top of the discard
pile and returns true; if the hand is then empty the round ends with
outcome `tongit` and that seat is the declared winner (recorded as
`winnerOfPreviousHand` and as the unique winner flag of the results);
otherwise the turn advances to `(turnIndex+1) mod 3` and the phase resets
to `draw`. -/
theorem c8_discard (s : GameSession) (p : Player) (ci : Nat)
    (hst : s.status = Status.playing) (hph : s.phase = Phase.action)
    (hcur : s.players[s.turnIndex]? = some p) (hci : ci < p.hand.length) :
    ∃ s', discard s p.id ci = .ok true s' ∧
      s'.discardPile = s.discardPile ++ [p.hand[ci]] ∧
      s'.players = updAt s.players s.turnIndex
        (fun q => { q with hand := p.hand.take ci ++ p.hand.drop (ci + 1) }) ∧
      s'.deck = s.deck ∧
      (p.hand.take ci ++ p.hand.drop (ci + 1) = [] →
        s'.status = Status.ended ∧
        s'.winnerOfPreviousHand = some p.id ∧
        ∃ rr : RoundResults, s'.roundResults = some rr ∧ rr.rtype = "tongit" ∧
          ∀ r ∈ rr.players, r.isWinner = decide (r.id = p.id)) ∧
      (p.hand.take ci ++ p.hand.drop (ci + 1) ≠ [] →
        s'.status = Status.playing ∧ s'.turnIndex = (s.turnIndex + 1) % 3 ∧
        s'.phase = Phase.draw) := by
  unfold discard
  rw [if_neg (by simp [hst, hph]), hcur]
  dsimp only
  rw [if_neg (by simp), List.getElem?_eq_getElem hci]
  dsimp only
  by_cases hz : p.hand.take ci ++ p.hand.drop (ci + 1) = []
  · rw [if_pos (by rw [hz]; rfl)]
    refine ⟨_, rfl, by simp, by simp, by simp, fun _ => ?_, fun hcon => absurd hz hcon⟩
    refine ⟨by simp, ?_, ?_⟩
    · rw [(endRound_tongit _ _).1]
    · refine ⟨_, (endRound_tongit _ _).2, rfl, ?_⟩
      intro r hr
      rcases List.mem_map.mp hr with ⟨q, -, rfl⟩
      rfl
  · have hcond : ¬((p.hand.take ci ++ p.hand.drop (ci + 1)).length = 0) := by
      intro hc
      exact hz (List.length_eq_zero.mp hc)
    rw [if_neg hcond]
    exact ⟨_, rfl, by simp, by simp, by simp, fun hcon => absurd hcon hz,
      fun _ => ⟨by simp [hst], by simp, by simp⟩⟩

/-- C8 (witness): the dealer P1's discard of hand index 12 in the dealt
round pushes that card, keeps the round in play, and passes the turn to
seat 1 in `draw` phase. -/
theorem c8_discard_witness :
    discard scenarioStart "P1" 12 = .ok true scenarioAfterDiscard ∧
    scenarioAfterDiscard.turnIndex = 1 ∧
    scenarioAfterDiscard.phase = Phase.draw ∧
    scenarioAfterDiscard.status = Status.playing := by
  obtain ⟨s', h1, h2, h3, h4, h5, h6⟩ := c8_discard scenarioStart scenarioP1 12
    (by decide) (by decide) (by decide) (by decide)
  have hid : scenarioP1.id = "P1" := by decide
  rw [hid] at h1
  have h0 : discard scenarioStart "P1" 12 = .ok true scenarioAfterDiscard := rfl
  rw [h0] at h1
  cases h1
  obtain ⟨ha, hb, hc⟩ := h6 (by decide)
  exact ⟨h0, hb, hc, ha⟩

/-- C2 (code-bug evidence): in the concrete dealt round — status
`playing`, `action` phase, the active dealer P1 holding 13 cards — the
call `discard('P1', 13)` with the out-of-range index 13 does NOT return a
boolean: `splice` removes nothing, JS pushes `undefined` onto the discard
pile and throws a `TypeError` while building the log message (modelled as
the `exn` outcome). -/
theorem c2_invalid_index_throws :
    scenarioStart.status = Status.playing ∧
    scenarioStart.phase = Phase.action ∧
    (scenarioStart.players[scenarioStart.turnIndex]?).map (fun p => p.id) = some "P1" ∧
    curHandLen scenarioStart = 13 ∧
    discard scenarioStart "P1" 13 = .exn :=
  ⟨by decide, by decide, by decide, by decide, by decide⟩

/-- C6: `drawFromDiscard(seatId, handCardIndices)` (with in-range,
duplicate-free indices) succeeds iff the caller is the active seat, the
phase is `draw`, the pile is non-empty, and the indicated hand cards plus
the top discard form a set or run; on success exactly those hand
positions are removed, the combination is appended as a new non-secret
exposed meld, `hasOpened` becomes true and the phase becomes `action`; on
a failed meld check the call returns false and the state — including the
pushed-back discard pile — is unchanged, so the seat can never simply add
the discard card to its hand; under these preconditions the call never
throws. -/
theorem c6_drawFromDiscard (s : GameSession) (p : Player) (pid : String)
    (idxs : List Nat)
    (hst : s.status = Status.playing)
    (hcur : s.players[s.turnIndex]? = some p)
    (hnd : idxs.Nodup) (hbnd : ∀ i ∈ idxs, i < p.hand.length) :
    ((∃ s', drawFromDiscard s pid idxs = .ok true s') ↔
      (pid = p.id ∧ s.phase = Phase.draw ∧
        ∃ top, s.discardPile.getLast? = some top ∧
          (isSet (idxs.filterMap (fun i => p.hand[i]?) ++ [top]) ∨
           isRun (idxs.filterMap (fun i => p.hand[i]?) ++ [top])))) ∧
    (∀ s' top, drawFromDiscard s pid idxs = .ok true s' →
      s.discardPile.getLast? = some top →
      s'.discardPile = s.discardPile.dropLast ∧
      s'.phase = Phase.action ∧
      s'.status = Status.playing ∧
      s'.players = updAt s.players s.turnIndex (fun q =>
        { q with hand := removeIdxs q.hand idxs,
                 exposedMelds := q.exposedMelds ++
                   [{ cards := idxs.filterMap (fun i => p.hand[i]?) ++ [top],
                      isSecret := false, isSapawedByOthers := false }],
                 hasOpened := true })) ∧
    (∀ s', drawFromDiscard s pid idxs = .ok false s' → s' = s) ∧
    drawFromDiscard s pid idxs ≠ .exn := by
  by_cases hph : s.phase = Phase.draw
  case neg =>
    have hcall : drawFromDiscard s pid idxs = .ok false s := by
      unfold drawFromDiscard
      rw [if_pos (by simp [hph])]
    rw [hcall]
    refine ⟨?_, ?_, ?_, by simp⟩
    · constructor
      · rintro ⟨s', hs⟩
        simp at hs
      · rintro ⟨-, hph', -⟩
        exact absurd hph' hph
    · intro s' top hs
      simp at hs
    · intro s' hs
      exact ((StepResult.ok.injEq _ _ _ _).mp hs).2.symm
  case pos =>
  cases hpile : s.discardPile.getLast? with
  | none =>
    have hpnil : s.discardPile = [] := List.getLast?_eq_none_iff.mp hpile
    have hcall : drawFromDiscard s pid idxs = .ok false s := by
      unfold drawFromDiscard
      rw [if_pos (by simp [hpnil])]
    rw [hcall]
    refine ⟨?_, ?_, ?_, by simp⟩
    · constructor
      · rintro ⟨s', hs⟩
        simp at hs
      · rintro ⟨-, -, top, htop, -⟩
        exact Option.noConfusion htop
    · intro s' top hs
      simp at hs
    · intro s' hs
      exact ((StepResult.ok.injEq _ _ _ _).mp hs).2.symm
  | some top =>
    have hpne : s.discardPile ≠ [] := by
      intro hc
      rw [hc] at hpile
      cases hpile
    have hplen : ¬(s.status ≠ Status.playing ∨ s.phase ≠ Phase.draw ∨
        s.discardPile.length = 0) := by
      push_neg
      exact ⟨hst, hph, fun hc => hpne (List.length_eq_zero.mp hc)⟩
    by_cases hpid : pid = p.id
    case neg =>
      have hcall : drawFromDiscard s pid idxs = .ok false s := by
        unfold drawFromDiscard
        rw [if_neg hplen, hcur]
        dsimp only
        rw [if_pos (fun c => hpid c.symm)]
      rw [hcall]
      refine ⟨?_, ?_, ?_, by simp⟩
      · constructor
        · rintro ⟨s', hs⟩
          simp at hs
        · rintro ⟨hpid', -⟩
          exact absurd hpid' hpid
      · intro s' top' hs
        simp at hs
      · intro s' hs
        exact ((StepResult.ok.injEq _ _ _ _).mp hs).2.symm
    case pos =>
    have hall : ∀ x ∈ (idxs.map (fun i => p.hand[i]?) ++ [some top]), x.isSome := by
      intro x hx
      rcases List.mem_append.mp hx with hx1 | hx2
      · rcases List.mem_map.mp hx1 with ⟨i, hi, rfl⟩
        rw [List.getElem?_eq_getElem (hbnd i hi)]
        rfl
      · simp only [List.mem_singleton] at hx2
        rw [hx2]
        rfl
    have hfm : ((idxs.map (fun i => p.hand[i]?)) ++ [some top]).filterMap id =
        idxs.filterMap (fun i => p.hand[i]?) ++ [top] := by
      rw [List.filterMap_append]
      simp [List.filterMap_map]
    cases hm : (isSet (idxs.filterMap (fun i => p.hand[i]?) ++ [top]) ||
        isRun (idxs.filterMap (fun i => p.hand[i]?) ++ [top])) with
    | true =>
      have hcall : ∃ s', drawFromDiscard s pid idxs = .ok true s' ∧
          s'.discardPile = s.discardPile.dropLast ∧
          s'.phase = Phase.action ∧
          s'.status = Status.playing ∧
          s'.players = updAt s.players s.turnIndex (fun q =>
            { q with hand := removeIdxs q.hand idxs,
                     exposedMelds := q.exposedMelds ++
                       [{ cards := idxs.filterMap (fun i => p.hand[i]?) ++ [top],
                          isSecret := false, isSapawedByOthers := false }],
                     hasOpened := true }) := by
        unfold drawFromDiscard
        rw [if_neg hplen, hcur]
        dsimp only
        rw [if_neg (by simp [hpid]), hpile]
        dsimp only
        rw [orElseJS_all_some _ hall, hfm, hm]
        refine ⟨_, rfl, by simp, by simp, by simp [hst], ?_⟩
        simp only [addLog_players]
      obtain ⟨s1, hs1, hd1, hp1, hst1, hpl1⟩ := hcall
      refine ⟨?_, ?_, ?_, ?_⟩
      · exact iff_of_true ⟨s1, hs1⟩ ⟨hpid, hph, top, rfl, by
          rcases Bool.or_eq_true_iff.mp hm with h | h
          · exact Or.inl h
          · exact Or.inr h⟩
      · intro s' top' hs htop'
        cases htop'
        rw [hs1] at hs
        cases hs
        exact ⟨hd1, hp1, hst1, hpl1⟩
      · intro s' hs
        rw [hs1] at hs
        simp at hs
      · rw [hs1]
        simp
    | false =>
      have hgl : s.discardPile.dropLast ++ [top] = s.discardPile := by
        have h1 := List.getLast?_eq_getLast s.discardPile hpne
        rw [hpile] at h1
        have h2 : s.discardPile.getLast hpne = top := (Option.some.inj h1).symm
        rw [← h2]
        exact List.dropLast_append_getLast hpne
      have hcall : drawFromDiscard s pid idxs = .ok false s := by
        unfold drawFromDiscard
        rw [if_neg hplen, hcur]
        dsimp only
        rw [if_neg (by simp [hpid]), hpile]
        dsimp only
        rw [orElseJS_all_some _ hall, hfm, hm, hgl]
      rw [hcall]
      refine ⟨?_, ?_, ?_, by simp⟩
      · constructor
        · rintro ⟨s', hs⟩
          simp at hs
        · rintro ⟨-, -, top', htop', hor⟩
          cases htop'
          rcases hor with h | h <;> simp [h] at hm
      · intro s' top' hs
        simp at hs
      · intro s' hs
        exact ((StepResult.ok.injEq _ _ _ _).mp hs).2.symm

theorem suitOrderTB_bound (s : Suit) : 1 ≤ suitOrderTB s ∧ suitOrderTB s ≤ 4 := by
  cases s <;> exact ⟨by decide, by decide⟩

theorem tb_lt_iff (a b : Card) :
    compareCardsForTieBreaker (some a) (some b) < 0 ↔ keyTB a < keyTB b := by
  have ha := suitOrderTB_bound a.suit
  have hb := suitOrderTB_bound b.suit
  unfold compareCardsForTieBreaker keyTB
  dsimp only
  split_ifs with h
  · constructor <;> intro h2 <;> omega
  · rw [ne_eq, not_not] at h
    constructor <;> intro h2 <;> omega

theorem tb_pos_iff (a b : Card) :
    compareCardsForTieBreaker (some a) (some b) > 0 ↔ keyTB b < keyTB a := by
  have ha := suitOrderTB_bound a.suit
  have hb := suitOrderTB_bound b.suit
  unfold compareCardsForTieBreaker keyTB
  dsimp only
  split_ifs with h
  · constructor <;> intro h2 <;> omega
  · rw [ne_eq, not_not] at h
    constructor <;> intro h2 <;> omega

theorem tb_eq_zero_iff (a b : Card) :
    compareCardsForTieBreaker (some a) (some b) = 0 ↔ keyTB a = keyTB b := by
  have ha := suitOrderTB_bound a.suit
  have hb := suitOrderTB_bound b.suit
  unfold compareCardsForTieBreaker keyTB
  dsimp only
  split_ifs with h
  · constructor <;> intro h2 <;> omega
  · rw [ne_eq, not_not] at h
    constructor <;> intro h2 <;> omega

/-- The head of `Array.sort(cmp)` is a maximum for any comparator that is
(on the list's members) the reversal of a linear integer key. -/
theorem sortCmp_max_key (key : α → Int) (cmp : α → α → Int) :
    ∀ l : List α, (∀ a ∈ l, ∀ b ∈ l, (cmp a b < 0 ↔ key b < key a)) →
      l = [] ∨ ∃ fw rest, sortCmp cmp l = fw :: rest ∧ fw ∈ l ∧
        ∀ x ∈ l, key x ≤ key fw := by
  intro l
  induction l with
  | nil => intro _; exact Or.inl rfl
  | cons a l2 ih =>
    intro hcmp
    right
    have hcmp2 : ∀ x ∈ l2, ∀ y ∈ l2, (cmp x y < 0 ↔ key y < key x) :=
      fun x hx y hy => hcmp x (by simp [hx]) y (by simp [hy])
    rcases ih hcmp2 with hnil | ⟨fw2, rest2, heq, hmem, hmax⟩
    · subst hnil
      exact ⟨a, [], rfl, by simp, by simp⟩
    · have hs : sortCmp cmp (a :: l2) = insertCmp cmp a (fw2 :: rest2) := by
        simp only [sortCmp, heq]
      have hiff := hcmp a (by simp) fw2 (by simp [hmem])
      by_cases hx : cmp a fw2 < 0
      · have hk : key fw2 < key a := hiff.mp hx
        refine ⟨a, fw2 :: rest2, ?_, by simp, ?_⟩
        · rw [hs]
          simp only [insertCmp]
          rw [if_pos hx]
        · intro x hx2
          rcases List.mem_cons.mp hx2 with rfl | hx3
          · exact le_refl _
          · exact le_trans (hmax x hx3) (le_of_lt hk)
      · have hk : ¬ key fw2 < key a := fun hlt => hx (hiff.mpr hlt)
        refine ⟨fw2, insertCmp cmp a rest2, ?_, by simp [hmem], ?_⟩
        · rw [hs]
          simp only [insertCmp]
          rw [if_neg hx]
        · intro x hx2
          rcases List.mem_cons.mp hx2 with rfl | hx3
          · omega
          · exact hmax x hx3

theorem deResult_id (p : Player) : (deResult p).id = p.id := rfl

theorem deResult_weight (p : Player) :
    (deResult p).weight = calculateHandValue p.hand := rfl

theorem deResult_bestCard (p : Player) :
    (deResult p).bestCard = findBestCard p.hand := rfl

/-- `Math.min` over a nonempty list is attained. -/
theorem minWeight_mem (ws : List Nat) (h : ws ≠ []) : minWeight ws ∈ ws := by
  match ws with
  | [] => exact absurd rfl h
  | w :: rest =>
    simp only [minWeight]
    clear h
    induction rest generalizing w with
    | nil => simp
    | cons r rest ih =>
      simp only [List.foldl_cons]
      rcases List.mem_cons.mp (ih (min w r)) with h1 | h1
      · rcases Nat.min_eq_left (le_of_eq rfl) with -
        rcases le_total w r with hle | hle
        · rw [h1, Nat.min_eq_left hle]; simp
        · rw [h1, Nat.min_eq_right hle]; simp
      · simp [List.mem_cons.mpr (Or.inr h1)]

/-- The ranked list built by the deck-empty branch of `endRound` — the
tied rows, sorted descending by best card unless the minimum is unique —
starts with a row that attains the minimum weight and whose tie-breaker
key dominates every other minimum-weight row. -/
theorem deckEmptyHead (ps : List PlayerResult)
    (hne : ps ≠ [])
    (hbs : ∀ r ∈ ps, ∃ c, r.bestCard = some c) :
    ∃ fw rest,
      (if (ps.filter (fun r => r.weight = minWeight (ps.map (fun r => r.weight)))).length = 1
        then ps.filter (fun r => r.weight = minWeight (ps.map (fun r => r.weight)))
        else sortCmp (fun a b => compareCardsForTieBreaker b.bestCard a.bestCard)
          (ps.filter (fun r => r.weight = minWeight (ps.map (fun r => r.weight))))) =
        fw :: rest ∧
      fw ∈ ps ∧ fw.weight = minWeight (ps.map (fun r => r.weight)) ∧
      ∀ r ∈ ps, r.weight = minWeight (ps.map (fun r => r.weight)) → keyR r ≤ keyR fw := by
  set m := minWeight (ps.map (fun r => r.weight)) with hm
  have htied_ne : ps.filter (fun r => r.weight = m) ≠ [] := by
    have hmm : m ∈ ps.map (fun r => r.weight) :=
      hm ▸ minWeight_mem _ (by simpa using hne)
    obtain ⟨r, hr, hrw⟩ := List.mem_map.mp hmm
    exact List.ne_nil_of_mem (List.mem_filter.mpr
      ⟨hr, by simp only [decide_eq_true_eq]; exact hrw⟩)
  by_cases hlen : (ps.filter (fun r => r.weight = m)).length = 1
  · rw [if_pos hlen]
    obtain ⟨x, hx⟩ := List.length_eq_one.mp hlen
    have hxmem : x ∈ ps.filter (fun r => r.weight = m) := by rw [hx]; simp
    refine ⟨x, [], hx, (List.mem_filter.mp hxmem).1, ?_, ?_⟩
    · have := (List.mem_filter.mp hxmem).2
      simpa using this
    · intro r hr hw
      have hrmem : r ∈ ps.filter (fun r => r.weight = m) :=
        List.mem_filter.mpr ⟨hr, by simp only [decide_eq_true_eq]; exact hw⟩
      rw [hx] at hrmem
      simp only [List.mem_singleton] at hrmem
      rw [hrmem]
  · rw [if_neg hlen]
    have hcmp : ∀ a ∈ ps.filter (fun r => r.weight = m),
        ∀ b ∈ ps.filter (fun r => r.weight = m),
        ((fun a b => compareCardsForTieBreaker b.bestCard a.bestCard) a b < 0 ↔
          keyR b < keyR a) := by
      intro a ha b hb
      obtain ⟨ca, hca⟩ := hbs a (List.mem_filter.mp ha).1
      obtain ⟨cb, hcb⟩ := hbs b (List.mem_filter.mp hb).1
      dsimp only
      rw [hca, hcb, tb_lt_iff]
      simp [keyR, hca, hcb]
    rcases sortCmp_max_key keyR _ (ps.filter (fun r => r.weight = m)) hcmp with
      h | ⟨fw, rest, h1, h2, h3⟩
    · exact absurd h htied_ne
    · refine ⟨fw, rest, h1, (List.mem_filter.mp h2).1, ?_, ?_⟩
      · have := (List.mem_filter.mp h2).2
        simpa using this
      · intro r hr hw
        exact h3 r (List.mem_filter.mpr ⟨hr, by simp only [decide_eq_true_eq]; exact hw⟩)

/-- Winner characterization of the deck-empty resolution: `endRound`
with outcome `deck-empty` marks as winner a seat attaining the minimum
unmelded hand weight whose best card dominates every weight-tied rival
under the settlement tie-breaker. -/
theorem endRound_deck_empty_char (s : GameSession) (p0 p1 p2 : Player)
    (b0 b1 b2 : Card)
    (hp : s.players = [p0, p1, p2])
    (hb0 : findBestCard p0.hand = some b0)
    (hb1 : findBestCard p1.hand = some b1)
    (hb2 : findBestCard p2.hand = some b2) :
    (endRound s none "deck-empty").status = Status.ended ∧
    (∃ pk, (pk = p0 ∨ pk = p1 ∨ pk = p2) ∧
      (endRound s none "deck-empty").winnerOfPreviousHand = some pk.id ∧
      (∀ q ∈ [p0, p1, p2], calculateHandValue pk.hand ≤ calculateHandValue q.hand) ∧
      (∀ q ∈ [p0, p1, p2], calculateHandValue q.hand = calculateHandValue pk.hand →
        compareCardsForTieBreaker (findBestCard pk.hand) (findBestCard q.hand) ≠ 0 →
        compareCardsForTieBreaker (findBestCard pk.hand) (findBestCard q.hand) > 0)) := by
  refine ⟨by simp, ?_⟩
  unfold endRound
  rw [if_neg (by decide), if_pos rfl]
  dsimp only
  rw [hp]
  have hfold : (fun p =>
      ({ id := p.id, name := p.name, weight := calculateHandValue p.hand,
         bestCard := findBestCard p.hand, isWinner := false } : PlayerResult)) =
      deResult := rfl
  rw [hfold]
  generalize hps : List.map deResult [p0, p1, p2] = ps
  have hne : ps ≠ [] := by rw [← hps]; simp
  have hbs : ∀ r ∈ ps, ∃ c, r.bestCard = some c := by
    rw [← hps]
    intro r hr
    simp only [List.map_cons, List.map_nil, List.mem_cons, List.mem_singleton,
      List.not_mem_nil, or_false] at hr
    rcases hr with rfl | rfl | rfl
    · exact ⟨b0, by rw [deResult_bestCard, hb0]⟩
    · exact ⟨b1, by rw [deResult_bestCard, hb1]⟩
    · exact ⟨b2, by rw [deResult_bestCard, hb2]⟩
  obtain ⟨fw, rest, hR, hfwmem, hfwW, hfwmax⟩ := deckEmptyHead ps hne hbs
  rw [hR]
  dsimp only
  rw [← hps] at hfwmem hfwW hfwmax
  simp only [List.map_cons, List.map_nil, deResult_weight] at hfwmem hfwW hfwmax
  have hmw : minWeight [calculateHandValue p0.hand, calculateHandValue p1.hand,
      calculateHandValue p2.hand] =
      min (min (calculateHandValue p0.hand) (calculateHandValue p1.hand))
        (calculateHandValue p2.hand) := rfl
  simp only [List.mem_cons, List.mem_singleton, List.not_mem_nil, or_false] at hfwmem
  have hmin : ∀ pk, fw = deResult pk →
      ∀ q ∈ [p0, p1, p2], calculateHandValue pk.hand ≤ calculateHandValue q.hand := by
    intro pk hpk q hq
    rw [hpk, deResult_weight] at hfwW
    simp only [List.mem_cons, List.mem_singleton, List.not_mem_nil, or_false] at hq
    rcases hq with rfl | rfl | rfl <;> omega
  have htie : ∀ pk bk, fw = deResult pk → findBestCard pk.hand = some bk →
      ∀ q ∈ [p0, p1, p2], calculateHandValue q.hand = calculateHandValue pk.hand →
      compareCardsForTieBreaker (findBestCard pk.hand) (findBestCard q.hand) ≠ 0 →
      compareCardsForTieBreaker (findBestCard pk.hand) (findBestCard q.hand) > 0 := by
    intro pk bk hpk hbk q hq hweq hne0
    rw [hpk, deResult_weight] at hfwW
    simp only [List.mem_cons, List.mem_singleton, List.not_mem_nil, or_false] at hq
    have hqb : ∃ bq, findBestCard q.hand = some bq := by
      rcases hq with rfl | rfl | rfl
      · exact ⟨b0, hb0⟩
      · exact ⟨b1, hb1⟩
      · exact ⟨b2, hb2⟩
    obtain ⟨bq, hbq⟩ := hqb
    rw [hbk, hbq] at hne0 ⊢
    rw [tb_pos_iff]
    have hle : keyR (deResult q) ≤ keyR fw := by
      refine hfwmax (deResult q) ?_ ?_
      · rcases hq with rfl | rfl | rfl <;> simp
      · rw [deResult_weight, hweq, hfwW]
    rw [hpk] at hle
    have hle2 : keyTB bq ≤ keyTB bk := by
      simpa [keyR, deResult_bestCard, hbq, hbk] using hle
    have hne2 : keyTB bk ≠ keyTB bq := fun hc => hne0 ((tb_eq_zero_iff bk bq).mpr hc)
    omega
  rcases hfwmem with hcase | hcase | hcase
  · refine ⟨p0, Or.inl rfl, ?_, hmin p0 hcase, htie p0 b0 hcase hb0⟩
    rw [hcase]
    simp only [addLog_winnerOfPreviousHand]
    rfl
  · refine ⟨p1, Or.inr (Or.inl rfl), ?_, hmin p1 hcase, htie p1 b1 hcase hb1⟩
    rw [hcase]
    simp only [addLog_winnerOfPreviousHand]
    rfl
  · refine ⟨p2, Or.inr (Or.inr rfl), ?_, hmin p2 hcase, htie p2 b2 hcase hb2⟩
    rw [hcase]
    simp only [addLog_winnerOfPreviousHand]
    rfl

/-- C5: when a round ends with outcome `deck-empty`, the declared winner
(the id recorded in `winnerOfPreviousHand`) is a seat attaining the
minimum unmelded hand weight (`calculateHandValue`), and its best card
beats the best card of every other weight-tied seat under the
settlement-specific tie-breaker; the tie-breaker uses rank values A=1,
J=11, K=12, Q=13 with suit priority ♦ > ♥ > ♠ > ♣, so Q♦ beats K♠. -/
theorem c5_deck_empty_winner (s : GameSession) (p0 p1 p2 : Player)
    (b0 b1 b2 : Card)
    (hp : s.players = [p0, p1, p2])
    (hb0 : findBestCard p0.hand = some b0)
    (hb1 : findBestCard p1.hand = some b1)
    (hb2 : findBestCard p2.hand = some b2) :
    (endRound s none "deck-empty").status = Status.ended ∧
    (∃ pk, (pk = p0 ∨ pk = p1 ∨ pk = p2) ∧
      (endRound s none "deck-empty").winnerOfPreviousHand = some pk.id ∧
      (∀ q ∈ [p0, p1, p2], calculateHandValue pk.hand ≤ calculateHandValue q.hand) ∧
      (∀ q ∈ [p0, p1, p2], calculateHandValue q.hand = calculateHandValue pk.hand →
        compareCardsForTieBreaker (findBestCard pk.hand) (findBestCard q.hand) ≠ 0 →
        compareCardsForTieBreaker (findBestCard pk.hand) (findBestCard q.hand) > 0)) ∧
    (tieBreakerRankValue Rank.A = 1 ∧ tieBreakerRankValue Rank.J = 11 ∧
     tieBreakerRankValue Rank.K = 12 ∧ tieBreakerRankValue Rank.Q = 13 ∧
     suitOrderTB Suit.club < suitOrderTB Suit.spade ∧
     suitOrderTB Suit.spade < suitOrderTB Suit.heart ∧
     suitOrderTB Suit.heart < suitOrderTB Suit.diamond ∧
     compareCardsForTieBreaker (some ⟨Suit.diamond, Rank.Q⟩)
       (some ⟨Suit.spade, Rank.K⟩) > 0) := by
  obtain ⟨h1, h2⟩ := endRound_deck_empty_char s p0 p1 p2 b0 b1 b2 hp hb0 hb1 hb2
  exact ⟨h1, h2, by decide⟩

/-- Witness for C5: `tieScenario` realizes the spec's example — X and Y
tie at weight 10 holding best cards Q♦ and K♠, and the declared
deck-empty winner is X, the Q♦ seat. -/
theorem c5_deck_empty_winner_witness :
    (tieScenario.players = [tieX, tieY, tieZ] ∧
     findBestCard tieX.hand = some ⟨Suit.diamond, Rank.Q⟩ ∧
     findBestCard tieY.hand = some ⟨Suit.spade, Rank.K⟩ ∧
     findBestCard tieZ.hand = some ⟨Suit.diamond, Rank.r6⟩) ∧
    ((endRound tieScenario none "deck-empty").status = Status.ended ∧
     (∃ pk, (pk = tieX ∨ pk = tieY ∨ pk = tieZ) ∧
       (endRound tieScenario none "deck-empty").winnerOfPreviousHand = some pk.id ∧
       (∀ q ∈ [tieX, tieY, tieZ],
         calculateHandValue pk.hand ≤ calculateHandValue q.hand) ∧
       (∀ q ∈ [tieX, tieY, tieZ],
         calculateHandValue q.hand = calculateHandValue pk.hand →
         compareCardsForTieBreaker (findBestCard pk.hand) (findBestCard q.hand) ≠ 0 →
         compareCardsForTieBreaker (findBestCard pk.hand) (findBestCard q.hand) > 0)) ∧
     (tieBreakerRankValue Rank.A = 1 ∧ tieBreakerRankValue Rank.J = 11 ∧
      tieBreakerRankValue Rank.K = 12 ∧ tieBreakerRankValue Rank.Q = 13 ∧
      suitOrderTB Suit.club < suitOrderTB Suit.spade ∧
      suitOrderTB Suit.spade < suitOrderTB Suit.heart ∧
      suitOrderTB Suit.heart < suitOrderTB Suit.diamond ∧
      compareCardsForTieBreaker (some ⟨Suit.diamond, Rank.Q⟩)
        (some ⟨Suit.spade, Rank.K⟩) > 0)) ∧
    (endRound tieScenario none "deck-empty").winnerOfPreviousHand = some "X" :=
  ⟨⟨rfl, by decide, by decide, by decide⟩,
   c5_deck_empty_winner tieScenario tieX tieY tieZ ⟨Suit.diamond, Rank.Q⟩
     ⟨Suit.spade, Rank.K⟩ ⟨Suit.diamond, Rank.r6⟩ rfl
     (by decide) (by decide) (by decide),
   rfl⟩

/-- C3: `callFight(seatId)` succeeds exactly when seatId is the active
seat in `action` phase, that seat has previously opened, did not open on
this very turn, and has at least one exposed meld not fully claimed by
others; on failure nothing changes; on success the round terminates
immediately via the same resolution as stock exhaustion
(`endRound(null, 'deck-empty')`), whose declared winner attains the
minimum unmelded hand weight, ties broken by best card. -/
theorem c3_callFight (s : GameSession) (p p0 p1 p2 : Player)
    (b0 b1 b2 : Card) (pid : String)
    (hst : s.status = Status.playing)
    (hcur : s.players[s.turnIndex]? = some p)
    (hp : s.players = [p0, p1, p2])
    (hb0 : findBestCard p0.hand = some b0)
    (hb1 : findBestCard p1.hand = some b1)
    (hb2 : findBestCard p2.hand = some b2) :
    ((callFight s pid).1 = true ↔
      (pid = p.id ∧ s.phase = Phase.action ∧ p.hasOpened = true ∧
       p.openedThisTurn = false ∧
       p.exposedMelds.any (fun m => !m.isSapawedByOthers) = true)) ∧
    ((callFight s pid).1 = false → (callFight s pid).2 = s) ∧
    ((callFight s pid).1 = true →
      (callFight s pid).2 = endRound s none "deck-empty" ∧
      (callFight s pid).2.status = Status.ended ∧
      (∃ pk, (pk = p0 ∨ pk = p1 ∨ pk = p2) ∧
        (callFight s pid).2.winnerOfPreviousHand = some pk.id ∧
        (∀ q ∈ [p0, p1, p2], calculateHandValue pk.hand ≤ calculateHandValue q.hand) ∧
        (∀ q ∈ [p0, p1, p2], calculateHandValue q.hand = calculateHandValue pk.hand →
          compareCardsForTieBreaker (findBestCard pk.hand) (findBestCard q.hand) ≠ 0 →
          compareCardsForTieBreaker (findBestCard pk.hand) (findBestCard q.hand) > 0))) := by
  by_cases hph : s.phase = Phase.action
  case neg =>
    have hcall : callFight s pid = (false, s) := by
      unfold callFight
      rw [if_pos (by simp [hph])]
    rw [hcall]
    refine ⟨?_, fun _ => rfl, ?_⟩
    · constructor
      · intro h
        simp at h
      · rintro ⟨-, hph2, -⟩
        exact absurd hph2 hph
    · intro h
      simp at h
  case pos =>
  by_cases hpid : p.id = pid
  case neg =>
    have hcall : callFight s pid = (false, s) := by
      unfold callFight
      rw [if_neg (by simp [hst, hph]), hcur]
      dsimp only
      rw [if_pos hpid]
    rw [hcall]
    refine ⟨?_, fun _ => rfl, ?_⟩
    · constructor
      · intro h
        simp at h
      · rintro ⟨hpid2, -⟩
        exact absurd hpid2.symm hpid
    · intro h
      simp at h
  case pos =>
  by_cases helig : p.hasOpened = true ∧ p.openedThisTurn = false ∧
    p.exposedMelds.any (fun m => !m.isSapawedByOthers) = true
  case pos =>
    have hcall : callFight s pid = (true, endRound s none "deck-empty") := by
      unfold callFight
      rw [if_neg (by simp [hst, hph]), hcur]
      dsimp only
      rw [if_neg (by simp [hpid]),
        if_pos ⟨helig.1, by simp [helig.2.1], helig.2.2⟩]
    obtain ⟨hS, hW⟩ := endRound_deck_empty_char s p0 p1 p2 b0 b1 b2 hp hb0 hb1 hb2
    rw [hcall]
    refine ⟨iff_of_true rfl ⟨hpid.symm, hph, helig⟩, ?_, fun _ => ⟨rfl, hS, hW⟩⟩
    intro h
    simp at h
  case neg =>
    have hcall : callFight s pid = (false, s) := by
      unfold callFight
      rw [if_neg (by simp [hst, hph]), hcur]
      dsimp only
      rw [if_neg (by simp [hpid]), if_neg ?hng]
      case hng =>
        intro hc
        exact helig ⟨hc.1, by simpa [Bool.not_eq_true] using hc.2.1, hc.2.2⟩
    rw [hcall]
    refine ⟨?_, fun _ => rfl, ?_⟩
    · constructor
      · intro h
        simp at h
      · rintro ⟨-, -, h1, h2, h3⟩
        exact absurd ⟨h1, h2, h3⟩ helig
    · intro h
      simp at h

/-- Witness for C3: in `fightScenario` the eligible minimum-weight seat A
calls the fight; the call succeeds and A is declared winner. -/
theorem c3_callFight_witness :
    (fightScenario.status = Status.playing ∧
     fightScenario.players[fightScenario.turnIndex]? = some fightA ∧
     fightScenario.players = [fightA, fightB, fightC] ∧
     findBestCard fightA.hand = some ⟨Suit.club, Rank.r2⟩ ∧
     findBestCard fightB.hand = some ⟨Suit.spade, Rank.r9⟩ ∧
     findBestCard fightC.hand = some ⟨Suit.diamond, Rank.K⟩) ∧
    ((callFight fightScenario "A").1 = true ↔
      ("A" = fightA.id ∧ fightScenario.phase = Phase.action ∧
       fightA.hasOpened = true ∧ fightA.openedThisTurn = false ∧
       fightA.exposedMelds.any (fun m => !m.isSapawedByOthers) = true)) ∧
    ((callFight fightScenario "A").1 = true →
      (callFight fightScenario "A").2 = endRound fightScenario none "deck-empty") ∧
    (callFight fightScenario "A").2.winnerOfPreviousHand = some "A" := by
  have h := c3_callFight fightScenario fightA fightA fightB fightC
    ⟨Suit.club, Rank.r2⟩ ⟨Suit.spade, Rank.r9⟩ ⟨Suit.diamond, Rank.K⟩ "A"
    (by decide) (by decide) rfl (by decide) (by decide) (by decide)
  exact ⟨⟨by decide, by decide, rfl, by decide, by decide, by decide⟩,
    h.1, fun hs => (h.2.2 hs).1, rfl⟩

/-- Witness for C6: in `scenarioAfterDiscard` (P2 to draw, 7♦ on the
pile, 7♠ and 7♥ at hand positions 0 and 1) the call
`drawFromDiscard('P2', [0,1])` succeeds. -/
theorem c6_drawFromDiscard_witness :
    (scenarioAfterDiscard.status = Status.playing ∧
     scenarioAfterDiscard.players[scenarioAfterDiscard.turnIndex]? = some scenarioP2 ∧
     ([0, 1] : List Nat).Nodup ∧
     ∀ i ∈ ([0, 1] : List Nat), i < scenarioP2.hand.length) ∧
    (∃ s', drawFromDiscard scenarioAfterDiscard "P2" [0, 1] = .ok true s') := by
  refine ⟨⟨by decide, by decide, by decide, by decide⟩, ?_⟩
  exact (c6_drawFromDiscard scenarioAfterDiscard scenarioP2 "P2" [0, 1]
      (by decide) (by decide) (by decide) (by decide)).1.mpr
    ⟨by decide, by decide, ⟨Suit.diamond, Rank.r7⟩, by decide, Or.inl (by decide)⟩

/-- C9: in action phase, when the hard bot's seat is fight-eligible
(opened earlier, not on this turn, some exposed meld not sapawed by
others), its decision is the fight action exactly when its own raw hand
weight is at most 15 and strictly lower than every opponent's true hand
weight. -/
theorem c9_hard_bot_fight (player : Player) (gs : BotView)
    (hph : gs.phase = Phase.action)
    (ho : player.hasOpened = true)
    (hot : player.openedThisTurn = false)
    (hm : player.exposedMelds.any (fun m => !m.isSapawedByOthers) = true) :
    hardLogic player gs = BotDecision.fight ↔
      (calculateHandWeight player.hand ≤ 15 ∧
        ∀ q ∈ gs.players, q.id ≠ player.id →
          calculateHandWeight player.hand < calculateHandWeight q.hand) := by
  unfold hardLogic
  rw [hph]
  dsimp only
  rw [if_pos (by simp [ho, hot]), if_pos hm]
  by_cases hc : (gs.players.all (fun q => decide (q.id = player.id ∨
      calculateHandWeight player.hand < calculateHandWeight q.hand))) = true ∧
      calculateHandWeight player.hand ≤ 15
  case pos =>
    rw [if_pos hc]
    refine iff_of_true rfl ⟨hc.2, ?_⟩
    intro q hq hne
    have hq2 := List.all_eq_true.mp hc.1 q hq
    rcases decide_eq_true_eq.mp hq2 with h | h
    · exact absurd h hne
    · exact h
  case neg =>
    rw [if_neg hc]
    constructor
    · intro h
      exfalso
      rcases hfp : findPossibleMelds player.hand with _ | ⟨m0, ms⟩ <;> rw [hfp] at h
      · dsimp only at h
        rcases hsd : findSapawDecision player.hand gs.players with _ | d <;>
          rw [hsd] at h
        · simp at h
        · dsimp only at h
          subst h
          unfold findSapawDecision at hsd
          obtain ⟨op, hop, hopEq⟩ := List.exists_of_findSome?_eq_some hsd
          obtain ⟨im, him, himEq⟩ := List.exists_of_findSome?_eq_some hopEq
          obtain ⟨ci, hci, hfake⟩ := Option.map_eq_some'.mp himEq
          simp at hfake
      · simp at h
    · rintro ⟨h15, hall⟩
      refine absurd ⟨?_, h15⟩ hc
      rw [List.all_eq_true]
      intro q hq
      rw [decide_eq_true_eq]
      by_cases hid : q.id = player.id
      · exact Or.inl hid
      · exact Or.inr (hall q hq hid)

/-- Witness for C9: in `botScenario` the hard bot (weight 1, opponents at
weights 10 and 20, fight-eligible) decides to fight. -/
theorem c9_hard_bot_fight_witness :
    (botScenario.phase = Phase.action ∧
     botSeat.hasOpened = true ∧ botSeat.openedThisTurn = false ∧
     botSeat.exposedMelds.any (fun m => !m.isSapawedByOthers) = true) ∧
    (hardLogic botSeat botScenario = BotDecision.fight ↔
      (calculateHandWeight botSeat.hand ≤ 15 ∧
        ∀ q ∈ botScenario.players, q.id ≠ botSeat.id →
          calculateHandWeight botSeat.hand < calculateHandWeight q.hand)) ∧
    hardLogic botSeat botScenario = BotDecision.fight :=
  ⟨⟨rfl, by decide, by decide, by decide⟩,
   c9_hard_bot_fight botSeat botScenario rfl (by decide) (by decide) (by decide),
   by decide⟩

end Tongits
